import Mathlib

/-!
Verification of the Orchestrator/Adapter dispatch core and the
structured-output recovery logic of the aero-ai-platform backend.

Strings are modelled as `List Char` (Python `str` restricted to Unicode
scalar values).  Python floats used only as stored configuration values
(temperature) are modelled as exact rationals, since no claim performs
float arithmetic on them.  The process environment is modelled as a
partial map from variable names to values.  Python exceptions are
modelled as an explicit error type carried in `Except`.
-/

namespace Aero

/-- Shorthand turning a string literal into the `List Char` representation
used throughout the development. -/
def str (s : String) : List Char := s.toList

/-- Python whitespace for `str.strip()` and the regex class `\s`
(ASCII scope: space, tab, newline, carriage return, vertical tab,
form feed). -/
def pyWs (c : Char) : Bool :=
  c = ' ' || c = '\t' || c = '\n' || c = '\r' || c = Char.ofNat 11 || c = Char.ofNat 12

/-- Leading-whitespace removal (left half of Python `str.strip()`). -/
def stripLead (l : List Char) : List Char := l.dropWhile pyWs

/-- Trailing-whitespace removal (right half of Python `str.strip()`). -/
def stripTrail (l : List Char) : List Char := ((l.reverse).dropWhile pyWs).reverse

/-- Python `str.strip()`: removes leading and trailing whitespace. -/
def pyStrip (l : List Char) : List Char := stripTrail (stripLead l)

/-- Truthiness of a Python string after `.strip()`: a string is blank iff
every character is whitespace (so `s.strip()` is falsy). -/
def isBlank (l : List Char) : Bool := l.all pyWs

/-- Python `str.lower()` (ASCII scope). -/
def lowerStr (l : List Char) : List Char := l.map Char.toLower

/-- Process environment: maps a variable name to its value when set.
`some []` models a variable set to the empty string (falsy in Python). -/
def Env : Type := List Char → Option (List Char)

/-- Python `a or b` for an optional string `a` (None and the empty string
are falsy and fall through to `b`). -/
def pyOrOpt (a : Option (List Char)) (b : List Char) : List Char :=
  match a with
  | none => b
  | some s => if s = [] then b else s

/-- Python `os.getenv(key, default)`: the default applies only when the
variable is unset, not when it is set to the empty string. -/
def getenvD (env : Env) (k d : List Char) : List Char := (env k).getD d

/-! ## Canonical request/response types (backend/core/types.py) -/

/-- Message role (`Role = Literal["system", "user", "assistant"]`). -/
inductive Role where
  | system
  | user
  | assistant
deriving DecidableEq, Repr

/-- A role-tagged chat message (`class Message`). -/
structure Message where
  role : Role
  content : List Char
deriving DecidableEq, Repr

/-- The canonical request envelope (`class LLMRequest`).  The free-form
`metadata` dict is not touched by any code path a claim mentions and is
omitted from the model. -/
structure LLMRequest where
  messages : List Message
  temperature : ℚ := 0.2
  max_tokens : Option ℤ := none
deriving DecidableEq, Repr

/-- Token usage fields of a response. -/
structure Usage where
  prompt_tokens : ℤ := 0
  completion_tokens : ℤ := 0
  total_tokens : ℤ := 0
deriving DecidableEq, Repr

/-- The canonical response envelope (`class LLMResponse`). -/
structure LLMResponse where
  text : List Char
  usage : Option Usage := none
  model_name : Option (List Char) := none
  finish_reason : Option (List Char) := none
deriving DecidableEq, Repr

/-! ## Python exceptions

`RuntimeError` and `ValueError` are Python builtins — the neutral types
the repository raises itself.  `httpxStatusError` and `httpxConnectError`
model `httpx.HTTPStatusError` / `httpx.ConnectError`: exception types
owned by the vendor HTTP client library, hence vendor-specific from the
caller's point of view. -/

inductive PyExc where
  | runtimeError (msg : List Char)
  | valueError (msg : List Char)
  | httpxStatusError (status : ℕ)
  | httpxConnectError
deriving DecidableEq, Repr

/-- An exception type owned by a vendor SDK / vendor HTTP client, as
opposed to a Python builtin raised by the repository's own code. -/
def isVendorExc : PyExc → Bool
  | .httpxStatusError _ => true
  | .httpxConnectError => true
  | .runtimeError _ => false
  | .valueError _ => false

/-! ## OpenAIAdapter (backend/adapters/gpt_adapter.py)

The constructor reads `OPENAI_API_KEY`; a missing or empty value raises
`RuntimeError("OPENAI_API_KEY not set in environment")` before the
`AsyncOpenAI` client object is even built (constructing that client
performs no network I/O; the model returns `Except` directly, so a
construction error by definition involves zero outbound calls). -/

structure OpenAIAdapterS where
  apiKey : List Char
  model : List Char
deriving DecidableEq, Repr

/-- `OpenAIAdapter.__init__`: `api_key = os.getenv("OPENAI_API_KEY")`;
`if not api_key: raise RuntimeError(...)`. -/
def openAIAdapterInit (env : Env) (model : List Char) : Except PyExc OpenAIAdapterS :=
  match env (str "OPENAI_API_KEY") with
  | none => .error (.runtimeError (str "OPENAI_API_KEY not set in environment"))
  | some k =>
      if k = [] then .error (.runtimeError (str "OPENAI_API_KEY not set in environment"))
      else .ok { apiKey := k, model := model }

/-- Outcome of the awaited OpenAI SDK call inside the `try` block of
`OpenAIAdapter.generate`: either a successful completion, or one of the
vendor exception types the SDK can raise (`RateLimitError`,
`AuthenticationError`, `APIConnectionError`, `APIError`) or any other
exception, each carrying its message. -/
inductive VendorOutcome where
  | success (text : List Char) (usage : Usage) (finish : Option (List Char))
  | rateLimitError (msg : List Char)
  | authenticationError (msg : List Char)
  | apiConnectionError (msg : List Char)
  | apiError (msg : List Char)
  | otherException (msg : List Char)
deriving DecidableEq, Repr

/-- `OpenAIAdapter.generate`: success builds the canonical response; every
exception raised by the vendor call is caught and re-raised as
`RuntimeError(f"<prefix>: {e}")` with a branch-specific message prefix. -/
def openAIGenerate (a : OpenAIAdapterS) (outcome : VendorOutcome) :
    Except PyExc LLMResponse :=
  match outcome with
  | .success text usage finish =>
      .ok { text := text, usage := some usage, model_name := some a.model,
            finish_reason := finish }
  | .rateLimitError m =>
      .error (.runtimeError (str "Rate limit exceeded: " ++ m))
  | .authenticationError m =>
      .error (.runtimeError (str "Authentication failed: " ++ m))
  | .apiConnectionError m =>
      .error (.runtimeError (str "Connection error: " ++ m))
  | .apiError m =>
      .error (.runtimeError (str "OpenAI API error: " ++ m))
  | .otherException m =>
      .error (.runtimeError (str "Unexpected error: " ++ m))

/-! ## ClaudeAdapter (backend/adapters/claude_adapter.py) -/

structure ClaudeAdapterS where
  apiKey : List Char
  model : List Char
deriving DecidableEq, Repr

/-- `ClaudeAdapter.__init__`: reads `ANTHROPIC_API_KEY`; missing or empty
raises `RuntimeError("ANTHROPIC_API_KEY not set in environment")`. -/
def claudeAdapterInit (env : Env) (model : List Char) : Except PyExc ClaudeAdapterS :=
  match env (str "ANTHROPIC_API_KEY") with
  | none => .error (.runtimeError (str "ANTHROPIC_API_KEY not set in environment"))
  | some k =>
      if k = [] then .error (.runtimeError (str "ANTHROPIC_API_KEY not set in environment"))
      else .ok { apiKey := k, model := model }

/-- Outcome of the `httpx` POST to the Anthropic endpoint: a response with
its HTTP status and body text, or a connection-level failure
(`httpx.ConnectError` and friends). -/
inductive HttpOutcome where
  | response (status : ℕ) (text : List Char)
  | connectFailure
deriving DecidableEq, Repr

/-- `ClaudeAdapter.generate`: performs the POST and calls
`r.raise_for_status()`, which raises `httpx.HTTPStatusError` for every
non-2xx status; there is no `try`/`except` anywhere in the method, so
`httpx` exceptions propagate to the caller unwrapped. -/
def claudeGenerate (a : ClaudeAdapterS) (outcome : HttpOutcome) :
    Except PyExc LLMResponse :=
  match outcome with
  | .connectFailure => .error .httpxConnectError
  | .response status text =>
      if 200 ≤ status ∧ status < 300 then
        .ok { text := text, usage := none, model_name := some a.model,
              finish_reason := none }
      else
        .error (.httpxStatusError status)

/-! ## Orchestrator (backend/core/orchestrator.py) -/

/-- The adapter value returned by `Orchestrator._get_adapter`. -/
inductive Adapter where
  | claude (a : ClaudeAdapterS)
  | openai (a : OpenAIAdapterS)
deriving DecidableEq, Repr

/-- Orchestrator defaults captured at construction. -/
structure Orchestrator where
  default_provider : List Char
  default_model : List Char
deriving DecidableEq, Repr

/-- `Orchestrator.__init__`: provider = `(default_provider or
os.getenv("DEFAULT_PROVIDER", "openai")).lower()`, model =
`default_model or os.getenv("DEFAULT_MODEL", "gpt-4o-mini")`. -/
def orchestratorInit (env : Env) (dp dm : Option (List Char)) : Orchestrator :=
  { default_provider := lowerStr (pyOrOpt dp (getenvD env (str "DEFAULT_PROVIDER") (str "openai"))),
    default_model := pyOrOpt dm (getenvD env (str "DEFAULT_MODEL") (str "gpt-4o-mini")) }

/-- The provider name `Orchestrator._get_adapter` dispatches on:
`(provider or self.default_provider).lower()`. -/
def resolvedProvider (o : Orchestrator) (provider : Option (List Char)) : List Char :=
  lowerStr (pyOrOpt provider o.default_provider)

/-- `Orchestrator._get_adapter`: closed dispatch over {"claude", "openai"};
anything else raises `ValueError(f"Unknown provider: {provider}")` with the
lowercased name.  Constructing an adapter touches only the environment. -/
def getAdapter (env : Env) (o : Orchestrator) (provider model : Option (List Char)) :
    Except PyExc Adapter :=
  let p := resolvedProvider o provider
  let m := pyOrOpt model o.default_model
  if p = str "claude" then (claudeAdapterInit env m).map .claude
  else if p = str "openai" then (openAIAdapterInit env m).map .openai
  else .error (.valueError (str "Unknown provider: " ++ p))

/-- The polymorphic first positional argument of `Orchestrator.generate`
(`req: Optional[Union[LLMRequest, str]]`). -/
inductive ReqArg where
  | envelope (r : LLMRequest)
  | text (s : List Char)
deriving DecidableEq, Repr

/-- The single outbound unit of work: reaching
`await adapter.generate(final_req, **kwargs)` with a given adapter and
normalized request.  Producing a `Forward` is the only point of the
orchestrator model at which a network call can occur, so an outcome equal
to an `Except.error` entails zero outbound network calls. -/
structure Forward where
  adapter : Adapter
  request : LLMRequest
deriving DecidableEq, Repr

/-- Result of `Orchestrator.generate`, cut at the point where the call is
handed to the adapter.  `reqAfter` is the state of the caller-passed
`LLMRequest` object when the call returns or raises: Python binds
`final_req = req` by reference, so field assignments mutate the caller's
object in place. -/
structure GenResult where
  outcome : Except PyExc Forward
  reqAfter : Option LLMRequest
deriving Repr

/-- Message raised when no usable prompt text is supplied. -/
def noPromptMsg : List Char := str "No prompt text provided to Orchestrator.generate()."

/-- The `LLMRequest` built by `Orchestrator.generate` from plain prompt
text: a single user message, `temperature if temperature is not None else
0.2`, and the `max_tokens` keyword as passed. -/
def freshRequest (content : List Char) (temperature : Option ℚ)
    (max_tokens : Option ℤ) : LLMRequest :=
  { messages := [{ role := .user, content := content }],
    temperature := temperature.getD 0.2,
    max_tokens := max_tokens }

/-- `Orchestrator.generate`: resolves the adapter first, then normalizes
the input into an `LLMRequest` (envelope with in-place overrides, else
non-blank `prompt` keyword, else non-blank string `req`, else
`ValueError`), then forwards.  `kwargs` beyond the modelled keywords are
passed through to the adapter and do not affect dispatch or
normalization. -/
def orchestratorGenerate (env : Env) (o : Orchestrator)
    (req : Option ReqArg) (prompt : Option (List Char))
    (temperature : Option ℚ) (max_tokens : Option ℤ)
    (provider model : Option (List Char)) : GenResult :=
  let origReq : Option LLMRequest :=
    match req with
    | some (.envelope r) => some r
    | _ => none
  match getAdapter env o provider model with
  | .error e => { outcome := .error e, reqAfter := origReq }
  | .ok adapter =>
      match req with
      | some (.envelope r) =>
          let r' : LLMRequest :=
            { r with
              temperature := match temperature with
                | some t => t
                | none => r.temperature,
              max_tokens := match max_tokens with
                | some v => some v
                | none => r.max_tokens }
          { outcome := .ok ⟨adapter, r'⟩, reqAfter := some r' }
      | _ =>
          match prompt with
          | some p =>
              if isBlank p then
                match req with
                | some (.text s) =>
                    if isBlank s then
                      { outcome := .error (.valueError noPromptMsg), reqAfter := none }
                    else
                      { outcome := .ok ⟨adapter, freshRequest s temperature max_tokens⟩,
                        reqAfter := none }
                | _ => { outcome := .error (.valueError noPromptMsg), reqAfter := none }
              else
                { outcome := .ok ⟨adapter, freshRequest p temperature max_tokens⟩,
                  reqAfter := none }
          | none =>
              match req with
              | some (.text s) =>
                  if isBlank s then
                    { outcome := .error (.valueError noPromptMsg), reqAfter := none }
                  else
                    { outcome := .ok ⟨adapter, freshRequest s temperature max_tokens⟩,
                      reqAfter := none }
              | _ => { outcome := .error (.valueError noPromptMsg), reqAfter := none }

/-- The spec's four caller-visible vendor-failure categories. -/
inductive ErrCat where
  | rateLimited
  | authenticationFailed
  | connectionFailed
  | vendorError
deriving DecidableEq, Repr

/-- The category a given vendor-call outcome ought to surface as
(`none` for a successful call).  Both `APIError` and unexpected
exceptions fall under the generic vendor-error category. -/
def vendorCat : VendorOutcome → Option ErrCat
  | .success .. => none
  | .rateLimitError _ => some .rateLimited
  | .authenticationError _ => some .authenticationFailed
  | .apiConnectionError _ => some .connectionFailed
  | .apiError _ => some .vendorError
  | .otherException _ => some .vendorError

/-- Caller-side discrimination procedure: recovers the failure category
from the message of a `RuntimeError` re-raised by `OpenAIAdapter.generate`
by inspecting the branch-specific message prefix.  Its existence is what
makes the four categories distinguishable by the caller. -/
def callerClassify (m : List Char) : Option ErrCat :=
  if (str "Rate limit exceeded: ").isPrefixOf m then some .rateLimited
  else if (str "Authentication failed: ").isPrefixOf m then some .authenticationFailed
  else if (str "Connection error: ").isPrefixOf m then some .connectionFailed
  else if (str "OpenAI API error: ").isPrefixOf m then some .vendorError
  else if (str "Unexpected error: ").isPrefixOf m then some .vendorError
  else none

/-- The scenario condition of claims C2 and C10: the polymorphic input is
an empty or blank string (or absent) and no request envelope is supplied,
including via the `prompt` keyword. -/
def blankCallInput (req : Option ReqArg) (prompt : Option (List Char)) : Prop :=
  (match req with
   | some (.envelope _) => False
   | some (.text s) => isBlank s = true
   | none => True)
  ∧ (match prompt with
     | some p => isBlank p = true
     | none => True)

/-! ## Code-fence stripping (Structured-Output Recovery)

Two copies exist in the source.  `advisor_routes._strip_code_fences` uses
the raw-string patterns `^```(?:json)?\s*` and `\s*```$`.
`concept_llm._strip_code_fences` uses `^```(?:json)?\\s*` and
`\\s*```$` — inside raw strings, `\\` is a regex escape for a literal
backslash character, so those patterns only fire when a literal `\`
(followed by a run of letter `s`) sits next to the fence.

Both functions run the substitutions on an already-`strip()`ed string, so
the modelled `$` anchor never sits before a trailing newline and matches
only at the end of the string. -/

/-- The advisor-routes leading substitution `re.sub(r"^```(?:json)?\s*", "", s)`:
if the text starts with ```` ``` ````, remove it, an optional `json`, and the
following whitespace run; otherwise no match, text unchanged. -/
def remLeadFence (l : List Char) : List Char :=
  if (str "```").isPrefixOf l then
    let r := l.drop 3
    let r2 := if (str "json").isPrefixOf r then r.drop 4 else r
    r2.dropWhile pyWs
  else l

/-- The advisor-routes trailing substitution `re.sub(r"\s*```$", "", s)`:
if the text ends with ```` ``` ````, remove it together with the maximal
whitespace run immediately before it (the leftmost match of the anchored
pattern); otherwise unchanged. -/
def remTrailFence (l : List Char) : List Char :=
  if (str "```").isPrefixOf l.reverse then
    ((l.reverse.drop 3).dropWhile pyWs).reverse
  else l

/-- `advisor_routes._strip_code_fences`: strip, conditionally remove the
two fences, strip again. -/
def advisorStripCodeFences (l : List Char) : List Char :=
  let t := pyStrip l
  pyStrip (if (str "```").isPrefixOf t then remTrailFence (remLeadFence t) else t)

/-- The concept-llm leading substitution with pattern `^```(?:json)?\\s*`
(regex atoms: ```` ``` ````, optional `json`, a literal backslash, a run of the
letter `s`): fires only when a literal backslash follows the fence. -/
def conceptRemLead (l : List Char) : List Char :=
  if (str "```").isPrefixOf l then
    let r := l.drop 3
    if (str "json\\").isPrefixOf r then (r.drop 5).dropWhile (fun c => c = 's')
    else if (str "\\").isPrefixOf r then (r.drop 1).dropWhile (fun c => c = 's')
    else l
  else l

/-- The concept-llm trailing substitution with pattern `\\s*```$` (a
literal backslash, a run of the letter `s`, then the fence at the end):
fires only when such a backslash-`s`-run precedes the final fence. -/
def conceptRemTrail (l : List Char) : List Char :=
  if (str "```").isPrefixOf l.reverse then
    let u := (l.reverse.drop 3).dropWhile (fun c => c = 's')
    if (str "\\").isPrefixOf u then (u.drop 1).reverse else l
  else l

/-- `concept_llm._strip_code_fences`: strip, conditionally run the two
(double-escaped) substitutions, strip again. -/
def conceptStripCodeFences (l : List Char) : List Char :=
  let t := pyStrip l
  pyStrip (if (str "```").isPrefixOf t then conceptRemTrail (conceptRemLead t) else t)

/-! ## JSON model (Structured-Output Recovery)

A model of the JSON subset exchanged here: `json_loads` models Python
`json.loads` restricted to integer numerals (float literals are outside
the modelled grammar; no claim involves them), parsing objects into
ordered association lists (Python dicts collapse duplicate keys — the
claims below quantify over objects with distinct keys).  `dumps` models
a standard JSON serialization with Python's default separators.
`parseRecover` models the two-attempt parse of `ai_compose_concept`
(concept_llm.py lines 188-192): a direct `_safe_json_load`, then on
failure a second load of `txt[:txt.rfind("\x7d")+1]` when a closing
brace exists.  All functions are total, modelling that
`_safe_json_load` converts every exception into `None`. -/

/-- JSON whitespace. -/
def jsonWs (c : Char) : Bool := c = ' ' || c = '\t' || c = '\n' || c = '\r'

def skipJsonWs (l : List Char) : List Char := l.dropWhile jsonWs

inductive JVal where
  | jnull
  | jbool (b : Bool)
  | jint (n : ℤ)
  | jstr (s : List Char)
  | jarr (elems : List JVal)
  | jobj (members : List ((List Char) × JVal))
deriving Repr

def hexVal (c : Char) : Option ℕ :=
  if '0' ≤ c ∧ c ≤ '9' then some (c.toNat - '0'.toNat)
  else if 'a' ≤ c ∧ c ≤ 'f' then some (c.toNat - 'a'.toNat + 10)
  else if 'A' ≤ c ∧ c ≤ 'F' then some (c.toNat - 'A'.toNat + 10)
  else none

def unescapeChar (c : Char) : Option Char :=
  if c = '"' then some '"'
  else if c = '\\' then some '\\'
  else if c = '/' then some '/'
  else if c = 'b' then some (Char.ofNat 8)
  else if c = 'f' then some (Char.ofNat 12)
  else if c = 'n' then some '\n'
  else if c = 'r' then some '\r'
  else if c = 't' then some '\t'
  else none

def parseStrBody : List Char → Option (List Char × List Char)
  | [] => none
  | '"' :: r => some ([], r)
  | '\\' :: 'u' :: a :: b :: c :: d :: r =>
      match hexVal a, hexVal b, hexVal c, hexVal d with
      | some va, some vb, some vc, some vd =>
          (parseStrBody r).map
            (fun p => (Char.ofNat (((va * 16 + vb) * 16 + vc) * 16 + vd) :: p.1, p.2))
      | _, _, _, _ => none
  | '\\' :: e :: r =>
      match unescapeChar e with
      | some ch => (parseStrBody r).map (fun p => (ch :: p.1, p.2))
      | none => none
  | ['\\'] => none
  | c :: r => if c.toNat < 0x20 then none else (parseStrBody r).map (fun p => (c :: p.1, p.2))

def digitsVal (ds : List Char) : ℕ :=
  ds.foldl (fun a c => a * 10 + (c.toNat - '0'.toNat)) 0

def pUNum : List Char → Option (ℕ × List Char)
  | '0' :: r => some (0, r)
  | c :: r =>
      if c.isDigit then
        some (digitsVal (List.takeWhile Char.isDigit (c :: r)),
              List.dropWhile Char.isDigit (c :: r))
      else none
  | [] => none

def pNum : List Char → Option (ℤ × List Char)
  | '-' :: r => (pUNum r).map (fun p => (-(p.1 : ℤ), p.2))
  | cs => (pUNum cs).map (fun p => ((p.1 : ℤ), p.2))

mutual

def pVal (fuel : ℕ) (cs : List Char) : Option (JVal × List Char) :=
  match fuel with
  | 0 => none
  | fuel + 1 =>
    match skipJsonWs cs with
    | 'n' :: 'u' :: 'l' :: 'l' :: r => some (.jnull, r)
    | 't' :: 'r' :: 'u' :: 'e' :: r => some (.jbool true, r)
    | 'f' :: 'a' :: 'l' :: 's' :: 'e' :: r => some (.jbool false, r)
    | '"' :: r => (parseStrBody r).map (fun p => (.jstr p.1, p.2))
    | '[' :: r =>
        (match skipJsonWs r with
         | ']' :: r' => some (.jarr [], r')
         | cs' => (pElems fuel cs').map (fun p => (.jarr p.1, p.2)))
    | '{' :: r =>
        (match skipJsonWs r with
         | '}' :: r' => some (.jobj [], r')
         | cs' => (pMembers fuel cs').map (fun p => (.jobj p.1, p.2)))
    | c :: r =>
        if c = '-' || c.isDigit then (pNum (c :: r)).map (fun p => (.jint p.1, p.2))
        else none
    | [] => none

def pElems (fuel : ℕ) (cs : List Char) : Option (List JVal × List Char) :=
  match fuel with
  | 0 => none
  | fuel + 1 =>
    match pVal fuel cs with
    | none => none
    | some (v, r) =>
        match skipJsonWs r with
        | ',' :: r' => (pElems fuel (skipJsonWs r')).map (fun p => (v :: p.1, p.2))
        | ']' :: r' => some ([v], r')
        | _ => none

def pMembers (fuel : ℕ) (cs : List Char) :
    Option (List ((List Char) × JVal) × List Char) :=
  match fuel with
  | 0 => none
  | fuel + 1 =>
    match skipJsonWs cs with
    | '"' :: r =>
        match parseStrBody r with
        | none => none
        | some (k, r1) =>
            match skipJsonWs r1 with
            | ':' :: r2 =>
                match pVal fuel (skipJsonWs r2) with
                | none => none
                | some (v, r3) =>
                    match skipJsonWs r3 with
                    | ',' :: r4 => (pMembers fuel (skipJsonWs r4)).map
                        (fun p => ((k, v) :: p.1, p.2))
                    | '}' :: r4 => some ([(k, v)], r4)
                    | _ => none
            | _ => none
    | _ => none

end

def json_loads (cs : List Char) : Option JVal :=
  match pVal (cs.length + 1) cs with
  | some (v, r) => if skipJsonWs r = [] then some v else none
  | none => none

def pyTruncBrace (l : List Char) : List Char :=
  ((l.reverse).dropWhile (fun c => ¬(c = '}'))).reverse

def parseRecover (txt : List Char) : Option JVal :=
  match json_loads txt with
  | some v => some v
  | none =>
      if '}' ∈ txt then json_loads (pyTruncBrace txt)
      else none

/-- `_safe_json` of advisor_routes.py (lines 42-46): a single
`json.loads` attempt inside try/except whose every exception is
converted into the empty dict; it performs no truncation retry. -/
def advisorSafeJson (text : List Char) : JVal :=
  match json_loads text with
  | some v => v
  | none => .jobj []

def hexDigit (n : ℕ) : Char :=
  if n < 10 then Char.ofNat ('0'.toNat + n) else Char.ofNat ('a'.toNat + (n - 10))

def escChar (c : Char) : List Char :=
  if c = '"' then '\\' :: '"' :: []
  else if c = '\\' then '\\' :: '\\' :: []
  else if c = '\n' then '\\' :: 'n' :: []
  else if c = '\r' then '\\' :: 'r' :: []
  else if c = '\t' then '\\' :: 't' :: []
  else if c = Char.ofNat 8 then '\\' :: 'b' :: []
  else if c = Char.ofNat 12 then '\\' :: 'f' :: []
  else if c.toNat < 0x20 then
    '\\' :: 'u' :: '0' :: '0' :: hexDigit (c.toNat / 16) :: hexDigit (c.toNat % 16) :: []
  else [c]

def dumpStr (s : List Char) : List Char := '"' :: ((s.map escChar).flatten ++ ['"'])

def natChars (n : ℕ) : List Char :=
  if n < 10 then [Char.ofNat ('0'.toNat + n)]
  else natChars (n / 10) ++ [Char.ofNat ('0'.toNat + n % 10)]
termination_by n
decreasing_by
  exact Nat.div_lt_self (by omega) (by norm_num)

def intChars (n : ℤ) : List Char :=
  if n < 0 then '-' :: natChars n.natAbs else natChars n.natAbs

mutual

def dumps : JVal → List Char
  | .jnull => 'n' :: 'u' :: 'l' :: 'l' :: []
  | .jbool true => 't' :: 'r' :: 'u' :: 'e' :: []
  | .jbool false => 'f' :: 'a' :: 'l' :: 's' :: 'e' :: []
  | .jint n => intChars n
  | .jstr s => dumpStr s
  | .jarr es => '[' :: (dumpsElems es ++ [']'])
  | .jobj ms => '{' :: (dumpsMembers ms ++ ['}'])

def dumpsElems : List JVal → List Char
  | [] => []
  | [e] => dumps e
  | e :: es => dumps e ++ ',' :: ' ' :: dumpsElems es

def dumpsMembers : List ((List Char) × JVal) → List Char
  | [] => []
  | [(k, v)] => dumpStr k ++ ':' :: ' ' :: dumps v
  | (k, v) :: ms => dumpStr k ++ ':' :: ' ' :: dumps v ++ ',' :: ' ' :: dumpsMembers ms

end

mutual

def fcount : JVal → ℕ
  | .jnull => 1
  | .jbool _ => 1
  | .jint _ => 1
  | .jstr _ => 1
  | .jarr es => 1 + ecount es
  | .jobj ms => 1 + mcount ms

def ecount : List JVal → ℕ
  | [] => 1
  | [v] => 1 + fcount v
  | v :: vs => 1 + max (fcount v) (ecount vs)

def mcount : List ((List Char) × JVal) → ℕ
  | [] => 1
  | [(_, v)] => 1 + fcount v
  | (_, v) :: ms => 1 + max (fcount v) (mcount ms)

end

/-! ## Theorems -/

/-- Dropping a predicate-satisfying prefix twice is the same as once. -/
theorem dropWhile_drop_idem (p : Char → Bool) (l : List Char) :
    List.dropWhile p (List.dropWhile p l) = List.dropWhile p l := by
  induction l with
  | nil => rfl
  | cons c t ih =>
      by_cases h : p c = true
      · simp [List.dropWhile_cons, h, ih]
      · simp [List.dropWhile_cons, h]

/-- Left-strip is idempotent. -/
theorem stripLead_idem (l : List Char) : stripLead (stripLead l) = stripLead l :=
  dropWhile_drop_idem pyWs l

/-- Right-strip is idempotent. -/
theorem stripTrail_idem (l : List Char) : stripTrail (stripTrail l) = stripTrail l := by
  unfold stripTrail
  rw [List.reverse_reverse, dropWhile_drop_idem]

/-- A list fixed by left-strip is empty or headed by a non-whitespace
character. -/
theorem stripLead_fix_head {l : List Char} (h : stripLead l = l) :
    l = [] ∨ ∃ c t, l = c :: t ∧ pyWs c = false := by
  cases l with
  | nil => exact .inl rfl
  | cons c t =>
      refine .inr ⟨c, t, rfl, ?_⟩
      by_cases hc : pyWs c = true
      · exfalso
        unfold stripLead at h
        rw [List.dropWhile_cons, if_pos hc] at h
        have := congrArg List.length h
        have hle := (List.dropWhile_sublist (l := t) pyWs).length_le
        simp at this
        omega
      · simpa using hc

/-- Right-stripping keeps a non-whitespace head in place. -/
theorem stripTrail_cons {c : Char} (t : List Char) (h : pyWs c = false) :
    stripTrail (c :: t) = c :: stripTrail t := by
  unfold stripTrail
  rw [List.reverse_cons, List.dropWhile_append]
  by_cases he : (List.dropWhile pyWs t.reverse).isEmpty = true
  · rw [if_pos he]
    rw [List.isEmpty_iff] at he
    simp [List.dropWhile_cons, h, he]
  · rw [if_neg he]
    simp

/-- A left-stripped list stays left-stripped after right-stripping. -/
theorem stripLead_stripTrail {l : List Char} (h : stripLead l = l) :
    stripLead (stripTrail l) = stripTrail l := by
  rcases stripLead_fix_head h with rfl | ⟨c, t, rfl, hc⟩
  · rfl
  · rw [stripTrail_cons t hc]
    unfold stripLead
    simp [List.dropWhile_cons, hc]

/-- Python `str.strip()` is idempotent. -/
theorem pyStrip_idem (l : List Char) : pyStrip (pyStrip l) = pyStrip l := by
  unfold pyStrip
  rw [stripLead_stripTrail (stripLead_idem l), stripTrail_idem]

/-- The advisor strip function returns a `strip()`-fixed string. -/
theorem advisorStrip_stripped (l : List Char) :
    pyStrip (advisorStripCodeFences l) = advisorStripCodeFences l := by
  unfold advisorStripCodeFences
  exact pyStrip_idem _

/-- The concept-llm strip function returns a `strip()`-fixed string. -/
theorem conceptStrip_stripped (l : List Char) :
    pyStrip (conceptStripCodeFences l) = conceptStripCodeFences l := by
  unfold conceptStripCodeFences
  exact pyStrip_idem _

/-- C7 counterexample: both `_strip_code_fences` implementations fail
idempotence — a first pass can expose a fresh leading fence that only a
second pass removes. -/
theorem c7_counterexample :
    advisorStripCodeFences (advisorStripCodeFences (str "``` ```x```"))
      ≠ advisorStripCodeFences (str "``` ```x```")
    ∧ conceptStripCodeFences (conceptStripCodeFences (str "```\\```\\x"))
      ≠ conceptStripCodeFences (str "```\\```\\x") := by
  constructor
  · decide
  · decide

/-- C7 amended: both `_strip_code_fences` implementations are idempotent
on every input whose image does not itself start with a ```` ``` ````
fence (the counterexample shows the restriction is necessary). -/
theorem c7_amended_idempotent_off_fences :
    (∀ s : List Char, (str "```").isPrefixOf (advisorStripCodeFences s) = false →
      advisorStripCodeFences (advisorStripCodeFences s) = advisorStripCodeFences s)
    ∧ (∀ s : List Char, (str "```").isPrefixOf (conceptStripCodeFences s) = false →
      conceptStripCodeFences (conceptStripCodeFences s) = conceptStripCodeFences s) := by
  constructor
  · intro s h
    have key : ∀ x : List Char, pyStrip x = x → (str "```").isPrefixOf x = false →
        advisorStripCodeFences x = x := by
      intro x hs hx
      unfold advisorStripCodeFences
      simp only [hs, hx, Bool.false_eq_true, if_false]
    exact key _ (advisorStrip_stripped s) h
  · intro s h
    have key : ∀ x : List Char, pyStrip x = x → (str "```").isPrefixOf x = false →
        conceptStripCodeFences x = x := by
      intro x hs hx
      unfold conceptStripCodeFences
      simp only [hs, hx, Bool.false_eq_true, if_false]
    exact key _ (conceptStrip_stripped s) h

/-- Witness for C7 amended: concrete non-fenced inputs are fixed by a
second application. -/
theorem c7_witness :
    advisorStripCodeFences (advisorStripCodeFences (str "  hello  "))
      = advisorStripCodeFences (str "  hello  ")
    ∧ conceptStripCodeFences (conceptStripCodeFences (str "  hello  "))
      = conceptStripCodeFences (str "  hello  ") :=
  ⟨c7_amended_idempotent_off_fences.1 (str "  hello  ") (by decide),
   c7_amended_idempotent_off_fences.2 (str "  hello  ") (by decide)⟩

/-- Left-stripping keeps a non-whitespace head in place. -/
theorem stripLead_cons_nonws {c : Char} (t : List Char) (h : pyWs c = false) :
    stripLead (c :: t) = c :: t := by
  simp [stripLead, List.dropWhile_cons, h]

/-- Right-stripping keeps a non-whitespace last element in place. -/
theorem stripTrail_last_nonws {c : Char} (l : List Char) (h : pyWs c = false) :
    stripTrail (l ++ [c]) = l ++ [c] := by
  unfold stripTrail
  rw [List.reverse_append]
  simp [List.dropWhile_cons, h]

/-- Right-stripping under a whitespace head keeps the head only when the
tail does not right-strip to nothing. -/
theorem stripTrail_cons_ws {c : Char} (t : List Char) (h : pyWs c = true) :
    stripTrail (c :: t) = if stripTrail t = [] then [] else c :: stripTrail t := by
  unfold stripTrail
  rw [List.reverse_cons, List.dropWhile_append]
  by_cases he : (List.dropWhile pyWs t.reverse).isEmpty = true
  · rw [if_pos he]
    rw [List.isEmpty_iff] at he
    simp [List.dropWhile_cons, h, he]
  · rw [if_neg he]
    have hne : (List.dropWhile pyWs t.reverse).reverse ≠ [] := by
      intro hc
      rw [List.reverse_eq_nil_iff] at hc
      rw [hc] at he
      exact he rfl
    rw [if_neg hne]
    simp

/-- A string left-strips to nothing iff it is all whitespace. -/
theorem stripLead_eq_nil_iff (l : List Char) : stripLead l = [] ↔ ∀ a ∈ l, pyWs a := by
  unfold stripLead
  exact List.dropWhile_eq_nil_iff

/-- A string right-strips to nothing iff it is all whitespace. -/
theorem stripTrail_eq_nil_iff (l : List Char) : stripTrail l = [] ↔ ∀ a ∈ l, pyWs a := by
  unfold stripTrail
  rw [List.reverse_eq_nil_iff, List.dropWhile_eq_nil_iff]
  constructor
  · intro h a ha
    exact h a (List.mem_reverse.mpr ha)
  · intro h a ha
    exact h a (List.mem_reverse.mp ha)

/-- Left- and right-stripping commute. -/
theorem stripLead_stripTrail_comm (l : List Char) :
    stripLead (stripTrail l) = stripTrail (stripLead l) := by
  induction l with
  | nil => rfl
  | cons c t ih =>
      by_cases h : pyWs c = true
      · rw [stripTrail_cons_ws t h]
        have hlead : stripLead (c :: t) = stripLead t := by
          simp [stripLead, List.dropWhile_cons, h]
        rw [hlead]
        by_cases hz : stripTrail t = []
        · rw [if_pos hz]
          have : stripLead t = [] := by
            rw [stripLead_eq_nil_iff]
            exact (stripTrail_eq_nil_iff t).mp hz
          rw [this]
          rfl
        · rw [if_neg hz]
          have : stripLead (c :: stripTrail t) = stripLead (stripTrail t) := by
            simp [stripLead, List.dropWhile_cons, h]
          rw [this, ih]
      · rw [Bool.not_eq_true] at h
        rw [stripTrail_cons t h]
        have h1 : stripLead (c :: stripTrail t) = c :: stripTrail t := by
          simp [stripLead, List.dropWhile_cons, h]
        have h2 : stripLead (c :: t) = c :: t := by
          simp [stripLead, List.dropWhile_cons, h]
        rw [h1, h2, stripTrail_cons t h]

/-- Membership transfers from a verified prefix to the whole string. -/
theorem isPrefixOf_mem {p x : List Char} (h : p.isPrefixOf x = true) {a : Char}
    (ha : a ∈ p) : a ∈ x := by
  rw [List.isPrefixOf_iff_prefix] at h
  obtain ⟨t, rfl⟩ := h
  exact List.mem_append.mpr (.inl ha)

/-- Right-stripping only removes characters. -/
theorem stripTrail_subset (l : List Char) : stripTrail l ⊆ l := by
  intro a ha
  unfold stripTrail at ha
  rw [List.mem_reverse] at ha
  have := (List.dropWhile_sublist (l := l.reverse) pyWs).subset ha
  exact List.mem_reverse.mp this

/-- Stripping only removes characters. -/
theorem pyStrip_subset (l : List Char) : pyStrip l ⊆ l := by
  intro a ha
  unfold pyStrip at ha
  have h1 := stripTrail_subset (stripLead l) ha
  exact (List.dropWhile_sublist (l := l) pyWs).subset h1

/-- The right-stripped string is a prefix of the original. -/
theorem stripTrail_isPre (l : List Char) : stripTrail l <+: l := by
  have h := List.dropWhile_suffix (l := l.reverse) pyWs
  have h2 := List.reverse_prefix.mpr h
  simpa using h2

/-- The leading advisor substitution after a ```` ```json ```` fence and a
newline removes exactly the fence, the marker and the whitespace run. -/
theorem remLead_json_newline (X : List Char) :
    remLeadFence ('`':: '`':: '`':: 'j':: 's':: 'o':: 'n':: '\n'::X) = List.dropWhile pyWs X := by
  unfold remLeadFence
  rw [if_pos (by simp [str, List.isPrefixOf])]
  simp only [List.drop_succ_cons, List.drop_zero]
  rw [if_pos (show (str "json").isPrefixOf ('j':: 's':: 'o':: 'n':: '\n'::X) = true by
    simp [str, List.isPrefixOf])]
  rw [List.dropWhile_cons, if_pos (by decide)]

/-- The leading advisor substitution after a bare ```` ``` ```` fence not
followed by the `json` marker removes the fence and the whitespace run. -/
theorem remLead_nojson (X : List Char) (hx : (str "json").isPrefixOf X = false) :
    remLeadFence ('`':: '`':: '`'::X) = X.dropWhile pyWs := by
  unfold remLeadFence
  rw [if_pos (by simp [str, List.isPrefixOf])]
  simp only [List.drop_succ_cons, List.drop_zero]
  rw [if_neg (by simp [hx])]

/-- The trailing advisor substitution removes a final fence preceded by a
newline together with the whitespace run before it. -/
theorem remTrail_newline_fence (A : List Char) :
    remTrailFence (A ++ '\n' :: ('`':: '`':: '`'::[]))
      = (List.dropWhile pyWs A.reverse).reverse := by
  unfold remTrailFence
  have hrev : (A ++ '\n' :: ('`':: '`':: '`'::[])).reverse = '`':: '`':: '`':: '\n':: A.reverse := by
    simp
  rw [hrev, if_pos (by simp [str, List.isPrefixOf])]
  simp only [List.drop_succ_cons, List.drop_zero]
  rw [List.dropWhile_cons, if_pos (by decide)]

/-- The trailing advisor substitution does not fire without a final
fence. -/
theorem remTrail_no_fence (l : List Char)
    (h : (str "```").isPrefixOf l.reverse = false) : remTrailFence l = l := by
  unfold remTrailFence
  rw [if_neg (by simp [h])]

/-- C8 counterexample: the advisor version removes a leading fence even
with no trailing fence present and strips surrounding whitespace of
fence-free text (two violations of "unchanged in every other case"),
while the concept-llm version leaves a properly double-fenced text
untouched (violating "removes … when both are present"). -/
theorem c8_counterexample :
    advisorStripCodeFences (str "```x") ≠ str "```x"
    ∧ advisorStripCodeFences (str "  x  ") ≠ str "  x  "
    ∧ conceptStripCodeFences (str "``` x ```") = str "``` x ```" := by
  exact ⟨by decide, by decide, by decide⟩

/-- C8 amended: after stripping surrounding whitespace, the advisor
version removes a leading ```` ```json ```` (or bare ```` ``` ````) fence
together with its trailing whitespace whenever the text starts with a
fence — independently of whether a trailing fence exists — and removes a
trailing ```` ``` ```` fence with its leading whitespace when present;
text not starting with a fence is returned merely whitespace-stripped.
The concept-llm copy's double-escaped patterns require literal
backslashes, so on backslash-free text it only strips whitespace. -/
theorem c8_amended_fence_stripping :
    (∀ s : List Char, (str "```").isPrefixOf (pyStrip s) = false →
       advisorStripCodeFences s = pyStrip s ∧ conceptStripCodeFences s = pyStrip s)
    ∧ (∀ body : List Char, stripLead body ≠ [] →
       advisorStripCodeFences (str "```json" ++ '\n' :: body ++ '\n' :: str "```")
         = pyStrip body)
    ∧ (∀ body : List Char, stripLead body ≠ [] → '`' ∉ body →
       (str "json").isPrefixOf body = false →
       advisorStripCodeFences (str "```" ++ body) = pyStrip body)
    ∧ (∀ s : List Char, '\\' ∉ s → conceptStripCodeFences s = pyStrip s) := by
  refine ⟨?_, ?_, ?_, ?_⟩
  · intro s h
    constructor
    · unfold advisorStripCodeFences
      simp only [h, Bool.false_eq_true, if_false]
      exact pyStrip_idem s
    · unfold conceptStripCodeFences
      simp only [h, Bool.false_eq_true, if_false]
      exact pyStrip_idem s
  · intro body hb
    show advisorStripCodeFences
      ('`':: '`':: '`':: 'j':: 's':: 'o':: 'n':: '\n':: (body ++ '\n' :: ('`':: '`':: '`'::[])))
        = pyStrip body
    have h1 : stripLead
        ('`':: '`':: '`':: 'j':: 's':: 'o':: 'n':: '\n':: (body ++ '\n' :: ('`':: '`':: '`'::[])))
        = '`':: '`':: '`':: 'j':: 's':: 'o':: 'n':: '\n':: (body ++ '\n' :: ('`':: '`':: '`'::[])) :=
      stripLead_cons_nonws _ (by decide)
    have h2 : stripTrail
        ('`':: '`':: '`':: 'j':: 's':: 'o':: 'n':: '\n':: (body ++ '\n' :: ('`':: '`':: '`'::[])))
        = '`':: '`':: '`':: 'j':: 's':: 'o':: 'n':: '\n':: (body ++ '\n' :: ('`':: '`':: '`'::[])) := by
      rw [show ('`':: '`':: '`':: 'j':: 's':: 'o':: 'n':: '\n':: (body ++ '\n' :: ('`':: '`':: '`'::[])))
          = ('`':: '`':: '`':: 'j':: 's':: 'o':: 'n':: '\n'::[]) ++ (body ++ ('\n':: '`':: '`'::[])) ++ ['`']
          from by simp]
      rw [stripTrail_last_nonws _ (by decide)]
    have hfix : pyStrip
        ('`':: '`':: '`':: 'j':: 's':: 'o':: 'n':: '\n':: (body ++ '\n' :: ('`':: '`':: '`'::[])))
        = '`':: '`':: '`':: 'j':: 's':: 'o':: 'n':: '\n':: (body ++ '\n' :: ('`':: '`':: '`'::[])) := by
      unfold pyStrip
      rw [h1, h2]
    unfold advisorStripCodeFences
    simp only [hfix]
    rw [if_pos (by simp [str, List.isPrefixOf])]
    rw [remLead_json_newline]
    have hne : (List.dropWhile pyWs body).isEmpty = false := by
      cases hdw : List.dropWhile pyWs body with
      | nil => exact absurd hdw hb
      | cons a t => rfl
    rw [List.dropWhile_append, hne]
    simp only [Bool.false_eq_true, if_false]
    rw [remTrail_newline_fence]
    show pyStrip (pyStrip body) = pyStrip body
    exact pyStrip_idem body
  · intro body hb hbt hj
    show advisorStripCodeFences ('`':: '`':: '`':: body) = pyStrip body
    have h1 : stripLead ('`':: '`':: '`':: body) = '`':: '`':: '`':: body :=
      stripLead_cons_nonws _ (by decide)
    have h2 : stripTrail ('`':: '`':: '`':: body) = '`':: '`':: '`':: stripTrail body := by
      rw [stripTrail_cons _ (by decide), stripTrail_cons _ (by decide),
        stripTrail_cons _ (by decide)]
    have hfix : pyStrip ('`':: '`':: '`':: body) = '`':: '`':: '`':: stripTrail body := by
      unfold pyStrip
      rw [h1, h2]
    have hjt : (str "json").isPrefixOf (stripTrail body) = false := by
      cases hc : (str "json").isPrefixOf (stripTrail body) with
      | false => rfl
      | true =>
          exfalso
          rw [List.isPrefixOf_iff_prefix] at hc
          have := hc.trans (stripTrail_isPre body)
          rw [← List.isPrefixOf_iff_prefix] at this
          rw [this] at hj
          cases hj
    unfold advisorStripCodeFences
    simp only [hfix]
    rw [if_pos (by simp [str, List.isPrefixOf])]
    rw [remLead_nojson _ hjt]
    have hdw : (stripTrail body).dropWhile pyWs = pyStrip body := by
      show stripLead (stripTrail body) = pyStrip body
      rw [stripLead_stripTrail_comm]
      rfl
    rw [hdw]
    have hguard : (str "```").isPrefixOf (pyStrip body).reverse = false := by
      cases hc : (str "```").isPrefixOf (pyStrip body).reverse with
      | false => rfl
      | true =>
          exfalso
          have hmem : '`' ∈ (pyStrip body).reverse := isPrefixOf_mem hc (by decide)
          rw [List.mem_reverse] at hmem
          exact hbt (pyStrip_subset body hmem)
    rw [remTrail_no_fence _ hguard]
    exact pyStrip_idem body
  · intro s hbs
    have hbt : '\\' ∉ pyStrip s := fun hc => hbs (pyStrip_subset s hc)
    unfold conceptStripCodeFences
    cases hg : (str "```").isPrefixOf (pyStrip s) with
    | false =>
        simp only [hg, Bool.false_eq_true, if_false]
        exact pyStrip_idem s
    | true =>
      simp only [hg, if_true]
      have hlead : conceptRemLead (pyStrip s) = pyStrip s := by
        unfold conceptRemLead
        rw [if_pos hg]
        rw [if_neg, if_neg]
        · intro hc
          have : '\\' ∈ (pyStrip s).drop 3 := isPrefixOf_mem hc (by decide)
          exact hbt (List.drop_subset 3 (pyStrip s) this)
        · intro hc
          have : '\\' ∈ (pyStrip s).drop 3 := isPrefixOf_mem hc (by decide)
          exact hbt (List.drop_subset 3 (pyStrip s) this)
      have htrail : conceptRemTrail (pyStrip s) = pyStrip s := by
        unfold conceptRemTrail
        by_cases hgr : (str "```").isPrefixOf (pyStrip s).reverse = true
        · rw [if_pos hgr]
          rw [if_neg]
          intro hc
          have h1 : '\\' ∈ ((pyStrip s).reverse.drop 3).dropWhile (fun c => c = 's') :=
            isPrefixOf_mem hc (by decide)
          have h2 := (List.dropWhile_sublist (l := (pyStrip s).reverse.drop 3)
            (fun c => c = 's')).subset h1
          have h3 := List.drop_subset 3 (pyStrip s).reverse h2
          rw [List.mem_reverse] at h3
          exact hbt h3
        · rw [if_neg (by simpa using hgr)]
      rw [hlead, htrail]
      exact pyStrip_idem s

/-- Witness for C8 amended at concrete inputs: the four behaviors at
fence-free text, a doubly fenced body, a leading-only fence, and a
backslash-free input through the concept-llm version. -/
theorem c8_witness :
    (advisorStripCodeFences (str " plain ") = pyStrip (str " plain ")
      ∧ conceptStripCodeFences (str " plain ") = pyStrip (str " plain "))
    ∧ advisorStripCodeFences (str "```json" ++ '\n' :: str "body" ++ '\n' :: str "```")
        = pyStrip (str "body")
    ∧ advisorStripCodeFences (str "```" ++ str "x") = pyStrip (str "x")
    ∧ conceptStripCodeFences (str "``` x ```") = pyStrip (str "``` x ```") :=
  ⟨c8_amended_fence_stripping.1 (str " plain ") (by decide),
   c8_amended_fence_stripping.2.1 (str "body") (by decide),
   c8_amended_fence_stripping.2.2.1 (str "x") (by decide) (by decide) (by decide),
   c8_amended_fence_stripping.2.2.2 (str "``` x ```") (by decide)⟩

/-- With an unknown resolved provider name, `_get_adapter` raises
`ValueError` naming that provider. -/
theorem getAdapter_unknown (env : Env) (o : Orchestrator)
    (provider model : Option (List Char))
    (hc : resolvedProvider o provider ≠ str "claude")
    (ho : resolvedProvider o provider ≠ str "openai") :
    getAdapter env o provider model
      = .error (.valueError (str "Unknown provider: " ++ resolvedProvider o provider)) := by
  unfold getAdapter
  simp only [if_neg hc, if_neg ho]

/-- When adapter resolution fails, `generate` propagates that error and
leaves any caller-passed envelope untouched. -/
theorem generate_adapter_error (env : Env) (o : Orchestrator)
    (req : Option ReqArg) (prompt : Option (List Char))
    (temperature : Option ℚ) (max_tokens : Option ℤ)
    (provider model : Option (List Char)) (e : PyExc)
    (hga : getAdapter env o provider model = .error e) :
    orchestratorGenerate env o req prompt temperature max_tokens provider model
      = { outcome := .error e,
          reqAfter := match req with
            | some (.envelope r) => some r
            | _ => none } := by
  unfold orchestratorGenerate
  rw [hga]

/-- When the adapter resolves but no usable prompt text is supplied,
`generate` raises the no-prompt `ValueError`. -/
theorem generate_blank_input (env : Env) (o : Orchestrator)
    (req : Option ReqArg) (prompt : Option (List Char))
    (temperature : Option ℚ) (max_tokens : Option ℤ)
    (provider model : Option (List Char)) (a : Adapter)
    (hga : getAdapter env o provider model = .ok a)
    (hblank : blankCallInput req prompt) :
    orchestratorGenerate env o req prompt temperature max_tokens provider model
      = { outcome := .error (.valueError noPromptMsg), reqAfter := none } := by
  obtain ⟨h1, h2⟩ := hblank
  unfold orchestratorGenerate
  rw [hga]
  cases req with
  | none =>
      cases prompt with
      | none => rfl
      | some p => simp only at h2; simp [h2]
  | some arg =>
      cases arg with
      | envelope r => exact absurd h1 (by simp)
      | text s =>
          simp only at h1
          cases prompt with
          | none => simp [h1]
          | some p => simp only at h2; simp [h1, h2]

/-- C3: for every call to `Orchestrator.generate` whose effective provider
name (explicit argument when non-empty, else the configured default,
lowercased as the code does) lies outside the closed vendor set
{"claude", "openai"}, the call fails with the unknown-provider
`ValueError` naming that provider, and no `Forward` (the model's single
outbound-call point) is produced, i.e. zero network calls occur. -/
theorem c3_unknown_provider_always_rejected (env : Env) (o : Orchestrator)
    (req : Option ReqArg) (prompt : Option (List Char))
    (temperature : Option ℚ) (max_tokens : Option ℤ)
    (provider model : Option (List Char))
    (hc : resolvedProvider o provider ≠ str "claude")
    (ho : resolvedProvider o provider ≠ str "openai") :
    (orchestratorGenerate env o req prompt temperature max_tokens provider model).outcome
      = .error (.valueError (str "Unknown provider: " ++ resolvedProvider o provider))
    ∧ ∀ f : Forward,
        (orchestratorGenerate env o req prompt temperature max_tokens provider model).outcome
          ≠ .ok f := by
  have h := generate_adapter_error env o req prompt temperature max_tokens provider model
    (.valueError (str "Unknown provider: " ++ resolvedProvider o provider))
    (getAdapter_unknown env o provider model hc ho)
  rw [h]
  exact ⟨rfl, fun f hf => by simp at hf⟩

/-- Witness for C3 at a concrete call: provider "nonexistent" with empty
environment and defaults. -/
theorem c3_witness :
    (orchestratorGenerate (fun _ => none) ⟨str "openai", str "gpt-4o-mini"⟩
        (some (.text (str "hello"))) none none none (some (str "nonexistent")) none).outcome
      = .error (.valueError (str "Unknown provider: "
          ++ resolvedProvider ⟨str "openai", str "gpt-4o-mini"⟩ (some (str "nonexistent"))))
    ∧ ∀ f : Forward,
        (orchestratorGenerate (fun _ => none) ⟨str "openai", str "gpt-4o-mini"⟩
            (some (.text (str "hello"))) none none none (some (str "nonexistent")) none).outcome
          ≠ .ok f :=
  c3_unknown_provider_always_rejected (fun _ => none) ⟨str "openai", str "gpt-4o-mini"⟩
    (some (.text (str "hello"))) none none none (some (str "nonexistent")) none
    (by decide) (by decide)

/-- C4: constructing an adapter whose vendor credential environment
variable is unset or set to the empty string always fails with the
configuration `RuntimeError` at construction time.  The constructor
models return `Except` values built from the environment alone — no
`Forward` or `VendorOutcome`/`HttpOutcome` is ever involved — so zero
outbound network calls occur. -/
theorem c4_missing_credential_fails_construction :
    (∀ (env : Env) (m : List Char),
      env (str "OPENAI_API_KEY") = none ∨ env (str "OPENAI_API_KEY") = some [] →
      openAIAdapterInit env m
        = .error (.runtimeError (str "OPENAI_API_KEY not set in environment")))
    ∧ (∀ (env : Env) (m : List Char),
      env (str "ANTHROPIC_API_KEY") = none ∨ env (str "ANTHROPIC_API_KEY") = some [] →
      claudeAdapterInit env m
        = .error (.runtimeError (str "ANTHROPIC_API_KEY not set in environment"))) := by
  constructor
  · intro env m h
    rcases h with h | h <;> simp [openAIAdapterInit, h]
  · intro env m h
    rcases h with h | h <;> simp [claudeAdapterInit, h]

/-- Witness for C4: both constructors fail on an environment binding both
credentials to the empty string. -/
theorem c4_witness :
    openAIAdapterInit (fun _ => some []) (str "gpt-4o-mini")
      = .error (.runtimeError (str "OPENAI_API_KEY not set in environment"))
    ∧ claudeAdapterInit (fun _ => some []) (str "claude-3-opus-20240229")
      = .error (.runtimeError (str "ANTHROPIC_API_KEY not set in environment")) :=
  ⟨c4_missing_credential_fails_construction.1 (fun _ => some []) (str "gpt-4o-mini") (.inr rfl),
   c4_missing_credential_fails_construction.2 (fun _ => some []) (str "claude-3-opus-20240229")
     (.inr rfl)⟩

/-- C10: `Orchestrator.generate` resolves the provider and constructs the
adapter before any input validation: with blank/absent input, an unknown
provider surfaces as the unknown-provider error (not the no-prompt
`ValueError`), and a known provider with a missing credential surfaces
the configuration `RuntimeError` before the empty-input check. -/
theorem c10_resolution_precedes_validation :
    (∀ (env : Env) (o : Orchestrator) (req : Option ReqArg) (prompt : Option (List Char))
        (temperature : Option ℚ) (max_tokens : Option ℤ) (provider model : Option (List Char)),
      resolvedProvider o provider ≠ str "claude" →
      resolvedProvider o provider ≠ str "openai" →
      blankCallInput req prompt →
      (orchestratorGenerate env o req prompt temperature max_tokens provider model).outcome
        = .error (.valueError (str "Unknown provider: " ++ resolvedProvider o provider)))
    ∧ (∀ (env : Env) (o : Orchestrator) (req : Option ReqArg) (prompt : Option (List Char))
        (temperature : Option ℚ) (max_tokens : Option ℤ) (provider model : Option (List Char)),
      resolvedProvider o provider = str "openai" →
      env (str "OPENAI_API_KEY") = none ∨ env (str "OPENAI_API_KEY") = some [] →
      blankCallInput req prompt →
      (orchestratorGenerate env o req prompt temperature max_tokens provider model).outcome
        = .error (.runtimeError (str "OPENAI_API_KEY not set in environment"))) := by
  constructor
  · intro env o req prompt temperature max_tokens provider model hc ho _
    exact (c3_unknown_provider_always_rejected env o req prompt temperature max_tokens
      provider model hc ho).1
  · intro env o req prompt temperature max_tokens provider model hp hk _
    have hinit : openAIAdapterInit env (pyOrOpt model o.default_model)
        = .error (.runtimeError (str "OPENAI_API_KEY not set in environment")) := by
      rcases hk with h | h <;> simp [openAIAdapterInit, h]
    have hga : getAdapter env o provider model
        = .error (.runtimeError (str "OPENAI_API_KEY not set in environment")) := by
      unfold getAdapter
      rw [if_neg (by rw [hp]; decide), if_pos hp, hinit]
      rfl
    rw [generate_adapter_error env o req prompt temperature max_tokens provider model _ hga]

/-- Witness for C10 at concrete calls: empty input with provider
"nonexistent", and empty input with provider "openai" but no credential;
in both cases the raised error is not the no-prompt `ValueError`. -/
theorem c10_witness :
    ((orchestratorGenerate (fun _ => none) ⟨str "openai", str "gpt-4o-mini"⟩
        (some (.text [])) none none none (some (str "nonexistent")) none).outcome
      = .error (.valueError (str "Unknown provider: "
          ++ resolvedProvider ⟨str "openai", str "gpt-4o-mini"⟩ (some (str "nonexistent")))))
    ∧ ((orchestratorGenerate (fun _ => none) ⟨str "openai", str "gpt-4o-mini"⟩
        (some (.text [])) none none none (some (str "openai")) none).outcome
      = .error (.runtimeError (str "OPENAI_API_KEY not set in environment")))
    ∧ PyExc.valueError (str "Unknown provider: nonexistent") ≠ .valueError noPromptMsg
    ∧ PyExc.runtimeError (str "OPENAI_API_KEY not set in environment")
        ≠ .valueError noPromptMsg :=
  ⟨c10_resolution_precedes_validation.1 (fun _ => none) ⟨str "openai", str "gpt-4o-mini"⟩
      (some (.text [])) none none none (some (str "nonexistent")) none
      (by decide) (by decide) ⟨by decide, trivial⟩,
   c10_resolution_precedes_validation.2 (fun _ => none) ⟨str "openai", str "gpt-4o-mini"⟩
      (some (.text [])) none none none (some (str "openai")) none
      (by decide) (.inl rfl) ⟨by decide, trivial⟩,
   by decide, by decide⟩

/-- C2 counterexample: a call whose input is the empty string but whose
provider is unknown fails with the unknown-provider `ValueError`, not the
no-prompt `ValueError` the claim promises for every empty-input call. -/
theorem c2_counterexample :
    (orchestratorGenerate (fun _ => none) ⟨str "openai", str "gpt-4o-mini"⟩
        (some (.text [])) none none none (some (str "nonexistent")) none).outcome
      = .error (.valueError (str "Unknown provider: nonexistent"))
    ∧ str "Unknown provider: nonexistent" ≠ noPromptMsg := by
  refine ⟨?_, by decide⟩
  have h := (c10_resolution_precedes_validation.1 (fun _ => none)
    ⟨str "openai", str "gpt-4o-mini"⟩ (some (.text [])) none none none
    (some (str "nonexistent")) none (by decide) (by decide) ⟨by decide, trivial⟩)
  rw [h]
  rfl

/-- C2 amended: provided the provider resolves to a known adapter and its
construction succeeds, a call to `Orchestrator.generate` whose input is an
empty or blank string (and no request envelope, including via the
`prompt` keyword) fails with the no-prompt `ValueError`; moreover, on any
call not passing a request envelope, whatever request is forwarded to an
adapter carries a single user message with non-blank content — an empty
prompt is never forwarded. -/
theorem c2_amended_blank_input_rejected :
    (∀ (env : Env) (o : Orchestrator) (req : Option ReqArg) (prompt : Option (List Char))
        (temperature : Option ℚ) (max_tokens : Option ℤ)
        (provider model : Option (List Char)) (a : Adapter),
      getAdapter env o provider model = .ok a →
      blankCallInput req prompt →
      (orchestratorGenerate env o req prompt temperature max_tokens provider model).outcome
        = .error (.valueError noPromptMsg))
    ∧ (∀ (env : Env) (o : Orchestrator) (req : Option ReqArg) (prompt : Option (List Char))
        (temperature : Option ℚ) (max_tokens : Option ℤ)
        (provider model : Option (List Char)) (f : Forward),
      (orchestratorGenerate env o req prompt temperature max_tokens provider model).outcome
        = .ok f →
      (∀ r, req ≠ some (.envelope r)) →
      ∃ m, f.request.messages = [{ role := .user, content := m }] ∧ isBlank m = false) := by
  constructor
  · intro env o req prompt temperature max_tokens provider model a hga hblank
    rw [generate_blank_input env o req prompt temperature max_tokens provider model a hga hblank]
  · intro env o req prompt temperature max_tokens provider model f hok hne
    unfold orchestratorGenerate at hok
    cases hga : getAdapter env o provider model with
    | error e => rw [hga] at hok; simp at hok
    | ok a =>
        rw [hga] at hok
        cases req with
        | some arg =>
            cases arg with
            | envelope r => exact absurd rfl (hne r)
            | text s =>
                cases prompt with
                | none =>
                    by_cases hs : isBlank s = true
                    · simp [hs] at hok
                    · rw [Bool.not_eq_true] at hs
                      simp only [hs, Bool.false_eq_true, if_false] at hok
                      cases hok
                      exact ⟨s, rfl, hs⟩
                | some p =>
                    by_cases hp : isBlank p = true
                    · by_cases hs : isBlank s = true
                      · simp [hp, hs] at hok
                      · rw [Bool.not_eq_true] at hs
                        simp only [hp, if_true, hs, Bool.false_eq_true, if_false] at hok
                        cases hok
                        exact ⟨s, rfl, hs⟩
                    · rw [Bool.not_eq_true] at hp
                      simp only [hp, Bool.false_eq_true, if_false] at hok
                      cases hok
                      exact ⟨p, rfl, hp⟩
        | none =>
            cases prompt with
            | none => simp at hok
            | some p =>
                by_cases hp : isBlank p = true
                · simp [hp] at hok
                · rw [Bool.not_eq_true] at hp
                  simp only [hp, Bool.false_eq_true, if_false] at hok
                  cases hok
                  exact ⟨p, rfl, hp⟩

/-- Witness for C2 amended: with a credential present and provider
"openai", the empty-string call raises the no-prompt error, and a
non-blank string call forwards exactly one non-blank user message. -/
theorem c2_witness :
    ((orchestratorGenerate (fun _ => some (str "sk")) ⟨str "openai", str "gpt-4o-mini"⟩
        (some (.text [])) none none none none none).outcome
      = .error (.valueError noPromptMsg))
    ∧ ∃ m, ({ adapter := .openai ⟨str "sk", str "gpt-4o-mini"⟩,
              request := freshRequest (str "hi") none none } : Forward).request.messages
            = [{ role := .user, content := m }] ∧ isBlank m = false :=
  ⟨c2_amended_blank_input_rejected.1 (fun _ => some (str "sk"))
      ⟨str "openai", str "gpt-4o-mini"⟩ (some (.text [])) none none none none none
      (.openai ⟨str "sk", str "gpt-4o-mini"⟩) (by rfl) ⟨by decide, trivial⟩,
   c2_amended_blank_input_rejected.2 (fun _ => some (str "sk"))
      ⟨str "openai", str "gpt-4o-mini"⟩ (some (.text (str "hi"))) none none none none none
      { adapter := .openai ⟨str "sk", str "gpt-4o-mini"⟩,
        request := freshRequest (str "hi") none none }
      (by rfl) (by intro r h; cases h)⟩

/-- C9 counterexample: passing an envelope with temperature 0.9 together
with an explicit temperature override 0.1 to a call that raises
unknown-provider leaves the caller-held request unmutated (temperature
still 0.9), contradicting the claim that after the call returns *or
raises* the envelope carries the overridden values. -/
theorem c9_counterexample :
    (orchestratorGenerate (fun _ => none) ⟨str "openai", str "gpt-4o-mini"⟩
        (some (.envelope { messages := [{ role := .user, content := str "hi" }],
                           temperature := 0.9, max_tokens := none }))
        none (some 0.1) none (some (str "nonexistent")) none).reqAfter
      = some { messages := [{ role := .user, content := str "hi" }],
               temperature := 0.9, max_tokens := none }
    ∧ (0.9 : ℚ) ≠ 0.1 := by
  constructor
  · rw [generate_adapter_error _ _ _ _ _ _ _ _ _
      (getAdapter_unknown _ _ _ _ (by decide) (by decide))]
  · norm_num

/-- C9 amended: when adapter resolution succeeds, the explicit
temperature/max_tokens overrides are written into the caller's own
request object in place — the caller-visible request after the call and
the request forwarded to the adapter are the same mutated object — while
if adapter resolution fails the caller's request is left untouched. -/
theorem c9_amended_override_in_place :
    (∀ (env : Env) (o : Orchestrator) (r : LLMRequest) (prompt : Option (List Char))
        (temperature : Option ℚ) (max_tokens : Option ℤ)
        (provider model : Option (List Char)) (a : Adapter),
      getAdapter env o provider model = .ok a →
      ∃ r', (orchestratorGenerate env o (some (.envelope r)) prompt temperature max_tokens
              provider model).reqAfter = some r'
        ∧ (orchestratorGenerate env o (some (.envelope r)) prompt temperature max_tokens
              provider model).outcome = .ok ⟨a, r'⟩
        ∧ r'.temperature = (match temperature with | some t => t | none => r.temperature)
        ∧ r'.max_tokens = (match max_tokens with | some v => some v | none => r.max_tokens)
        ∧ r'.messages = r.messages)
    ∧ (∀ (env : Env) (o : Orchestrator) (r : LLMRequest) (prompt : Option (List Char))
        (temperature : Option ℚ) (max_tokens : Option ℤ)
        (provider model : Option (List Char)) (e : PyExc),
      getAdapter env o provider model = .error e →
      (orchestratorGenerate env o (some (.envelope r)) prompt temperature max_tokens
          provider model).reqAfter = some r) := by
  constructor
  · intro env o r prompt temperature max_tokens provider model a hga
    refine ⟨{ r with
        temperature := match temperature with | some t => t | none => r.temperature,
        max_tokens := match max_tokens with | some v => some v | none => r.max_tokens },
      ?_, ?_, rfl, rfl, rfl⟩ <;>
      · unfold orchestratorGenerate
        rw [hga]
  · intro env o r prompt temperature max_tokens provider model e hga
    rw [generate_adapter_error _ _ _ _ _ _ _ _ _ hga]

/-- Witness for C9 amended at a concrete call: with a credential present,
the override 0.1 is visible in the caller-held request, which is exactly
the forwarded one. -/
theorem c9_witness :
    ∃ r', (orchestratorGenerate (fun _ => some (str "sk"))
            ⟨str "openai", str "gpt-4o-mini"⟩
            (some (.envelope { messages := [{ role := .user, content := str "hi" }],
                               temperature := 0.9, max_tokens := none }))
            none (some 0.1) none none none).reqAfter = some r'
      ∧ (orchestratorGenerate (fun _ => some (str "sk"))
            ⟨str "openai", str "gpt-4o-mini"⟩
            (some (.envelope { messages := [{ role := .user, content := str "hi" }],
                               temperature := 0.9, max_tokens := none }))
            none (some 0.1) none none none).outcome
          = .ok ⟨.openai ⟨str "sk", str "gpt-4o-mini"⟩, r'⟩
      ∧ r'.temperature = (0.1 : ℚ)
      ∧ r'.max_tokens = (none : Option ℤ)
      ∧ r'.messages = [{ role := .user, content := str "hi" }] :=
  c9_amended_override_in_place.1 (fun _ => some (str "sk"))
    ⟨str "openai", str "gpt-4o-mini"⟩
    { messages := [{ role := .user, content := str "hi" }],
      temperature := 0.9, max_tokens := none }
    none (some 0.1) none none none (.openai ⟨str "sk", str "gpt-4o-mini"⟩) (by rfl)

/-- C1 counterexample: `ClaudeAdapter.generate` on an HTTP 429 response
raises `httpx.HTTPStatusError` — a vendor-specific exception type —
directly to the caller, so the claim that every adapter re-raises vendor
failures as one of the four neutral error categories is false. -/
theorem c1_counterexample :
    claudeGenerate ⟨str "k", str "claude-3-opus-20240229"⟩ (.response 429 [])
      = .error (.httpxStatusError 429)
    ∧ isVendorExc (.httpxStatusError 429) = true := by
  constructor
  · simp only [claudeGenerate]
    rw [if_neg (by omega)]
  · rfl

/-- C1 amended: `OpenAIAdapter.generate` never lets a vendor-specific
exception type reach the caller — a successful vendor call returns a
response, and every vendor failure is caught and re-raised as a Python
`RuntimeError` whose message prefix identifies exactly one of the four
categories rate-limited / authentication-failed / connection-failed /
vendor-error, recoverable by the caller via `callerClassify`.
(`ClaudeAdapter.generate` does not satisfy this: it propagates `httpx`
exceptions unwrapped, per the counterexample.) -/
theorem c1_amended_openai_normalizes_vendor_errors :
    (∀ (a : OpenAIAdapterS) (vo : VendorOutcome), vendorCat vo = none →
       ∃ r, openAIGenerate a vo = .ok r)
    ∧ (∀ (a : OpenAIAdapterS) (vo : VendorOutcome) (e : PyExc),
       openAIGenerate a vo = .error e →
       isVendorExc e = false
       ∧ ∃ m, e = .runtimeError m ∧ callerClassify m = vendorCat vo
            ∧ vendorCat vo ≠ none) := by
  constructor
  · intro a vo h
    cases vo with
    | success t u f => exact ⟨_, rfl⟩
    | rateLimitError m => simp [vendorCat] at h
    | authenticationError m => simp [vendorCat] at h
    | apiConnectionError m => simp [vendorCat] at h
    | apiError m => simp [vendorCat] at h
    | otherException m => simp [vendorCat] at h
  · intro a vo e he
    cases vo with
    | success t u f => simp [openAIGenerate] at he
    | rateLimitError m =>
        simp only [openAIGenerate] at he
        injection he with h
        exact ⟨h ▸ rfl, _, h.symm,
          by simp [callerClassify, vendorCat, str, List.isPrefixOf], by simp [vendorCat]⟩
    | authenticationError m =>
        simp only [openAIGenerate] at he
        injection he with h
        exact ⟨h ▸ rfl, _, h.symm,
          by simp [callerClassify, vendorCat, str, List.isPrefixOf], by simp [vendorCat]⟩
    | apiConnectionError m =>
        simp only [openAIGenerate] at he
        injection he with h
        exact ⟨h ▸ rfl, _, h.symm,
          by simp [callerClassify, vendorCat, str, List.isPrefixOf], by simp [vendorCat]⟩
    | apiError m =>
        simp only [openAIGenerate] at he
        injection he with h
        exact ⟨h ▸ rfl, _, h.symm,
          by simp [callerClassify, vendorCat, str, List.isPrefixOf], by simp [vendorCat]⟩
    | otherException m =>
        simp only [openAIGenerate] at he
        injection he with h
        exact ⟨h ▸ rfl, _, h.symm,
          by simp [callerClassify, vendorCat, str, List.isPrefixOf], by simp [vendorCat]⟩

/-- Witness for C1 amended: a concrete rate-limit failure is re-raised as
a `RuntimeError` the caller classifies as rate-limited. -/
theorem c1_witness :
    isVendorExc (.runtimeError (str "Rate limit exceeded: busy")) = false
    ∧ ∃ m, PyExc.runtimeError (str "Rate limit exceeded: busy") = .runtimeError m
        ∧ callerClassify m = vendorCat (.rateLimitError (str "busy"))
        ∧ vendorCat (.rateLimitError (str "busy")) ≠ none :=
  c1_amended_openai_normalizes_vendor_errors.2 ⟨str "sk", str "gpt-4o-mini"⟩
    (.rateLimitError (str "busy")) (.runtimeError (str "Rate limit exceeded: busy")) rfl



theorem hexVal_hexDigit (d : ℕ) (h : d < 16) : hexVal (hexDigit d) = some d := by
  interval_cases d <;> decide

theorem parseStrBody_esc (c : Char) (rest : List Char) :
    parseStrBody (escChar c ++ rest)
      = (parseStrBody rest).map (fun p => (c :: p.1, p.2)) := by
  unfold escChar
  by_cases h1 : c = '"'
  · subst h1; simp [parseStrBody, unescapeChar]
  · rw [if_neg h1]
    by_cases h2 : c = '\\'
    · subst h2; simp [parseStrBody, unescapeChar]
    · rw [if_neg h2]
      by_cases h3 : c = '\n'
      · subst h3; simp [parseStrBody, unescapeChar]
      · rw [if_neg h3]
        by_cases h4 : c = '\r'
        · subst h4; simp [parseStrBody, unescapeChar]
        · rw [if_neg h4]
          by_cases h5 : c = '\t'
          · subst h5; simp [parseStrBody, unescapeChar]
          · rw [if_neg h5]
            by_cases h6 : c = Char.ofNat 8
            · subst h6; simp [parseStrBody, unescapeChar]
            · rw [if_neg h6]
              by_cases h7 : c = Char.ofNat 12
              · subst h7; simp [parseStrBody, unescapeChar]
              · rw [if_neg h7]
                by_cases h8 : c.toNat < 0x20
                · rw [if_pos h8]
                  have d1 : c.toNat / 16 < 16 := by omega
                  have d2 : c.toNat % 16 < 16 := by omega
                  simp only [List.cons_append, List.nil_append, parseStrBody,
                    hexVal_hexDigit _ d1, hexVal_hexDigit _ d2]
                  rw [show hexVal '0' = some 0 from rfl]
                  have harith : c.toNat / 16 * 16 + c.toNat % 16 = c.toNat := by omega
                  simp [harith, Char.ofNat_toNat]
                · rw [if_neg h8]
                  simp only [List.cons_append, List.nil_append]
                  rw [parseStrBody.eq_def]
                  simp [h1, h2, h8]

theorem parseStrBody_dump (s : List Char) : ∀ (rest : List Char),
    parseStrBody ((s.map escChar).flatten ++ ('"' :: rest)) = some (s, rest) := by
  induction s with
  | nil => intro rest; simp [parseStrBody]
  | cons c t ih =>
      intro rest
      rw [List.map_cons, List.flatten_cons, List.append_assoc, parseStrBody_esc, ih]
      rfl

/-- A remainder that cannot extend a parsed integer: empty or headed by a
non-digit (every JSON delimiter and whitespace qualifies). -/
def numDelim : List Char → Bool
  | [] => true
  | c :: _ => !c.isDigit

theorem digitChar_isDigit (d : ℕ) (h : d < 10) :
    (Char.ofNat ('0'.toNat + d)).isDigit = true := by
  interval_cases d <;> decide

theorem digitChar_val (d : ℕ) (h : d < 10) :
    (Char.ofNat ('0'.toNat + d)).toNat - '0'.toNat = d := by
  interval_cases d <;> decide

theorem digitChar_ne_zero (d : ℕ) (h0 : d ≠ 0) (h : d < 10) :
    Char.ofNat ('0'.toNat + d) ≠ '0' := by
  interval_cases d
  · exact absurd rfl h0
  all_goals decide

theorem natChars_all_digits (n : ℕ) : ∀ c ∈ natChars n, c.isDigit = true := by
  induction n using Nat.strong_induction_on with
  | _ n ih =>
    rw [natChars]
    by_cases h : n < 10
    · simp only [if_pos h]
      intro c hc
      rw [List.mem_singleton] at hc
      subst hc
      exact digitChar_isDigit _ (by omega)
    · simp only [if_neg h]
      intro c hc
      rw [List.mem_append] at hc
      rcases hc with hc | hc
      · exact ih (n / 10) (Nat.div_lt_self (by omega) (by norm_num)) c hc
      · rw [List.mem_singleton] at hc
        subst hc
        exact digitChar_isDigit _ (by omega)

theorem natChars_head (n : ℕ) (h0 : n ≠ 0) :
    ∃ c t, natChars n = c :: t ∧ c.isDigit = true ∧ c ≠ '0' := by
  induction n using Nat.strong_induction_on with
  | _ n ih =>
    rw [natChars]
    by_cases h : n < 10
    · refine ⟨Char.ofNat ('0'.toNat + n), [], by simp [h], digitChar_isDigit _ h,
        digitChar_ne_zero _ h0 h⟩
    · obtain ⟨c, t, heq, hd, hz⟩ :=
        ih (n / 10) (Nat.div_lt_self (by omega) (by norm_num)) (by omega)
      refine ⟨c, t ++ [Char.ofNat ('0'.toNat + n % 10)], ?_, hd, hz⟩
      simp [h, heq]

theorem digitsVal_natChars (n : ℕ) : digitsVal (natChars n) = n := by
  induction n using Nat.strong_induction_on with
  | _ n ih =>
    rw [natChars]
    by_cases h : n < 10
    · simp only [if_pos h, digitsVal, List.foldl_cons, List.foldl_nil]
      rw [digitChar_val _ h]
      omega
    · simp only [if_neg h]
      have : digitsVal (natChars (n / 10) ++ [Char.ofNat ('0'.toNat + n % 10)])
          = digitsVal (natChars (n / 10)) * 10
            + ((Char.ofNat ('0'.toNat + n % 10)).toNat - '0'.toNat) := by
        simp [digitsVal, List.foldl_append]
      rw [this, ih (n / 10) (Nat.div_lt_self (by omega) (by norm_num)),
        digitChar_val _ (by omega)]
      omega

theorem digit_run_split (ds : List Char) (hds : ∀ c ∈ ds, c.isDigit = true)
    (rest : List Char) (hrest : numDelim rest = true) :
    List.takeWhile Char.isDigit (ds ++ rest) = ds
    ∧ List.dropWhile Char.isDigit (ds ++ rest) = rest := by
  induction ds with
  | nil =>
      cases rest with
      | nil => exact ⟨rfl, rfl⟩
      | cons c t =>
          simp only [numDelim, Bool.not_eq_true'] at hrest
          simp [List.takeWhile_cons, List.dropWhile_cons, hrest]
  | cons c t ih =>
      have hc : c.isDigit = true := hds c (by simp)
      have := ih (fun x hx => hds x (by simp [hx]))
      simp [List.takeWhile_cons, List.dropWhile_cons, hc, this.1, this.2]

theorem pUNum_natChars (n : ℕ) (rest : List Char) (hrest : numDelim rest = true) :
    pUNum (natChars n ++ rest) = some (n, rest) := by
  by_cases h0 : n = 0
  · subst h0
    rw [show natChars 0 = ['0'] from by rw [natChars]; rfl]
    rfl
  · obtain ⟨c, t, heq, hdig, hne0⟩ := natChars_head n h0
    have hall : ∀ x ∈ c :: t, x.isDigit = true := by
      rw [← heq]
      exact natChars_all_digits n
    obtain ⟨htake, hdrop⟩ := digit_run_split (c :: t) hall rest hrest
    rw [heq, List.cons_append]
    rw [pUNum.eq_def]
    split
    · rename_i r heq2
      injection heq2 with hh _
      exact absurd hh hne0
    · rename_i c' r heq2
      injection heq2 with hh1 hh2
      subst hh1
      subst hh2
      rw [if_pos hdig]
      have ht' : List.takeWhile Char.isDigit (c :: (t ++ rest)) = c :: t := by
        simpa using htake
      have hd' : List.dropWhile Char.isDigit (c :: (t ++ rest)) = rest := by
        simpa using hdrop
      rw [ht', hd']
      have hdv : digitsVal (c :: t) = n := by
        rw [← heq]
        exact digitsVal_natChars n
      rw [hdv]
    · rename_i heq2
      simp at heq2

theorem natChars_ne_nil (n : ℕ) : natChars n ≠ [] := by
  rw [natChars]
  by_cases h : n < 10 <;> simp [h]

theorem pNum_intChars (n : ℤ) (rest : List Char) (hrest : numDelim rest = true) :
    pNum (intChars n ++ rest) = some (n, rest) := by
  unfold intChars
  by_cases hn : n < 0
  · rw [if_pos hn, List.cons_append, pNum.eq_def]
    split
    · rename_i r heq2
      injection heq2 with _ hh2
      subst hh2
      rw [pUNum_natChars _ _ hrest]
      show some (-(n.natAbs : ℤ), rest) = some (n, rest)
      have : -(n.natAbs : ℤ) = n := by omega
      rw [this]
    · rename_i hno
      exact absurd rfl (hno (natChars n.natAbs ++ rest))
  · rw [if_neg hn]
    cases hm : natChars n.natAbs with
    | nil => exact absurd hm (natChars_ne_nil _)
    | cons c t =>
        have hc : c.isDigit = true := natChars_all_digits _ c (by rw [hm]; simp)
        have hgoal : natChars n.natAbs ++ rest = c :: (t ++ rest) := by simp [hm]
        rw [pNum.eq_def]
        split
        · rename_i r heq2
          injection heq2 with hh _
          subst hh
          exact absurd hc (by decide)
        · show (pUNum (c :: (t ++ rest))).map (fun p => ((p.1 : ℤ), p.2)) = some (n, rest)
          rw [← hgoal, pUNum_natChars _ _ hrest]
          show some ((n.natAbs : ℤ), rest) = some (n, rest)
          have : (n.natAbs : ℤ) = n := by omega
          rw [this]

theorem fcount_pos (v : JVal) : 1 ≤ fcount v := by
  cases v <;> simp [fcount]

theorem skipJsonWs_cons {c : Char} (t : List Char) (h : jsonWs c = false) :
    skipJsonWs (c :: t) = c :: t := by
  simp [skipJsonWs, List.dropWhile_cons, h]

theorem digit_not_special {c : Char} (h : c.isDigit = true) :
    (jsonWs c = false ∧ c ≠ ']' ∧ c ≠ '}')
      ∧ (c ≠ 'n' ∧ c ≠ 't' ∧ c ≠ 'f') ∧ (c ≠ '"' ∧ c ≠ '[' ∧ c ≠ '{') := by
  have hne : ∀ d : Char, d.isDigit = false → c ≠ d := by
    intro d hd he
    subst he
    rw [h] at hd
    exact Bool.noConfusion hd
  have hw : jsonWs c = false := by
    cases hw : jsonWs c with
    | false => rfl
    | true =>
        exfalso
        simp only [jsonWs, Bool.or_eq_true, decide_eq_true_eq] at hw
        rcases hw with ((rfl | rfl) | rfl) | rfl <;> exact absurd h (by decide)
  exact ⟨⟨hw, hne _ (by decide), hne _ (by decide)⟩,
    ⟨hne _ (by decide), hne _ (by decide), hne _ (by decide)⟩,
    ⟨hne _ (by decide), hne _ (by decide), hne _ (by decide)⟩⟩

theorem dumps_head (v : JVal) :
    ∃ c t, dumps v = c :: t ∧ jsonWs c = false ∧ c ≠ ']' ∧ c ≠ '}' := by
  cases v with
  | jnull => exact ⟨'n', _, rfl, by decide, by decide, by decide⟩
  | jbool b =>
      cases b with
      | false => exact ⟨'f', _, rfl, by decide, by decide, by decide⟩
      | true => exact ⟨'t', _, rfl, by decide, by decide, by decide⟩
  | jstr s => exact ⟨'"', _, rfl, by decide, by decide, by decide⟩
  | jarr es => exact ⟨'[', _, rfl, by decide, by decide, by decide⟩
  | jobj ms => exact ⟨'{', _, rfl, by decide, by decide, by decide⟩
  | jint n =>
      show ∃ c t, intChars n = c :: t ∧ _
      unfold intChars
      by_cases hn : n < 0
      · rw [if_pos hn]
        exact ⟨'-', _, rfl, by decide, by decide, by decide⟩
      · rw [if_neg hn]
        cases hm : natChars n.natAbs with
        | nil => exact absurd hm (natChars_ne_nil _)
        | cons c t =>
            have hc : c.isDigit = true := natChars_all_digits _ c (by rw [hm]; simp)
            obtain ⟨⟨hw, hr, hb⟩, _⟩ := digit_not_special hc
            exact ⟨c, t, rfl, hw, hr, hb⟩

theorem skipJsonWs_dumps (v : JVal) (X : List Char) :
    skipJsonWs (dumps v ++ X) = dumps v ++ X := by
  obtain ⟨c, t, heq, hw, _, _⟩ := dumps_head v
  rw [heq, List.cons_append, skipJsonWs_cons _ hw]

theorem skipJsonWs_cons_ws {c : Char} (t : List Char) (h : jsonWs c = true) :
    skipJsonWs (c :: t) = skipJsonWs t := by
  simp [skipJsonWs, List.dropWhile_cons, h]

theorem pVal_lit_null (fuel : ℕ) (r : List Char) :
    pVal (fuel + 1) ('n':: 'u':: 'l':: 'l'::r) = some (.jnull, r) := by
  simp only [pVal]
  rw [skipJsonWs_cons _ (by decide)]
  rfl

theorem pVal_lit_true (fuel : ℕ) (r : List Char) :
    pVal (fuel + 1) ('t':: 'r':: 'u':: 'e'::r) = some (.jbool true, r) := by
  simp only [pVal]
  rw [skipJsonWs_cons _ (by decide)]
  rfl

theorem pVal_lit_false (fuel : ℕ) (r : List Char) :
    pVal (fuel + 1) ('f':: 'a':: 'l':: 's':: 'e'::r) = some (.jbool false, r) := by
  simp only [pVal]
  rw [skipJsonWs_cons _ (by decide)]
  rfl

theorem pVal_quote (fuel : ℕ) (X : List Char) :
    pVal (fuel + 1) ('"'::X) = (parseStrBody X).map (fun p => (.jstr p.1, p.2)) := by
  simp only [pVal]
  rw [skipJsonWs_cons _ (by decide)]
  rfl

theorem pVal_lbracket (fuel : ℕ) (X : List Char) :
    pVal (fuel + 1) ('['::X)
      = (match skipJsonWs X with
         | ']' :: r' => some (.jarr [], r')
         | cs' => (pElems fuel cs').map (fun p => (.jarr p.1, p.2))) := by
  simp only [pVal]
  rw [skipJsonWs_cons _ (by decide)]
  rfl

theorem pVal_lbrace (fuel : ℕ) (X : List Char) :
    pVal (fuel + 1) ('{'::X)
      = (match skipJsonWs X with
         | '}' :: r' => some (.jobj [], r')
         | cs' => (pMembers fuel cs').map (fun p => (.jobj p.1, p.2))) := by
  simp only [pVal]
  rw [skipJsonWs_cons _ (by decide)]
  rfl



theorem pVal_other (fuel : ℕ) (c : Char) (r : List Char)
    (hws : jsonWs c = false) (hn : c ≠ 'n') (ht : c ≠ 't') (hf : c ≠ 'f')
    (hq : c ≠ '"') (hlb : c ≠ '[') (hbr : c ≠ '{') :
    pVal (fuel + 1) (c :: r)
      = (if c = '-' ∨ c.isDigit = true then (pNum (c :: r)).map (fun p => (.jint p.1, p.2))
         else none) := by
  simp only [pVal]
  rw [skipJsonWs_cons _ hws]
  split
  · rename_i rr heq
    injection heq with h1 _
    exact absurd h1 hn
  · rename_i rr heq
    injection heq with h1 _
    exact absurd h1 ht
  · rename_i rr heq
    injection heq with h1 _
    exact absurd h1 hf
  · rename_i rr heq
    injection heq with h1 _
    exact absurd h1 hq
  · rename_i rr heq
    injection heq with h1 _
    exact absurd h1 hlb
  · rename_i rr heq
    injection heq with h1 _
    exact absurd h1 hbr
  · rename_i c' rr heq
    injection heq with h1 h2
    subst h1
    subst h2
    have hcond : ((decide (c = '-') || c.isDigit) = true) ↔ (c = '-' ∨ c.isDigit = true) := by
      simp
    by_cases hd : c = '-' ∨ c.isDigit = true
    · rw [if_pos (hcond.mpr hd), if_pos hd]
    · rw [if_neg (fun hx => hd (hcond.mp hx)), if_neg hd]
  · rename_i heq
    cases heq

theorem numDelim_not_digit {c : Char} (X : List Char) (h : c.isDigit = false) :
    numDelim (c :: X) = true := by
  simp [numDelim, h]

theorem ecount_pos (es : List JVal) : 1 ≤ ecount es := by
  cases es with
  | nil => simp [ecount]
  | cons v vs =>
      cases vs with
      | nil => simp [ecount]
      | cons w ws => simp [ecount]

theorem mcount_pos (ms : List ((List Char) × JVal)) : 1 ≤ mcount ms := by
  cases ms with
  | nil => simp [mcount]
  | cons kv ms' =>
      obtain ⟨k, v⟩ := kv
      cases ms' with
      | nil => simp [mcount]
      | cons kv2 ms'' => simp [mcount]

theorem dumpsElems_head (e : JVal) (es : List JVal) :
    ∃ c t, dumpsElems (e :: es) = c :: t ∧ jsonWs c = false ∧ c ≠ ']' ∧ c ≠ '}' := by
  obtain ⟨c, t, heq, hw, hr, hb⟩ := dumps_head e
  cases es with
  | nil => exact ⟨c, t, by simp [dumpsElems, heq], hw, hr, hb⟩
  | cons e2 es' =>
      refine ⟨c, t ++ ',' :: ' ' :: dumpsElems (e2 :: es'), ?_, hw, hr, hb⟩
      show dumps e ++ ',' :: ' ' :: dumpsElems (e2 :: es') = _
      simp [heq]

theorem dumpsMembers_head (k : List Char) (v : JVal) (ms : List ((List Char) × JVal)) :
    ∃ t, dumpsMembers ((k, v) :: ms) = '"' :: t := by
  cases ms with
  | nil => exact ⟨(k.map escChar).flatten ++ ['"'] ++ ':' :: ' ' :: dumps v, by
      show dumpStr k ++ ':' :: ' ' :: dumps v = _
      simp [dumpStr]⟩
  | cons kv2 ms' =>
      exact ⟨(k.map escChar).flatten ++ ['"']
          ++ ':' :: ' ' :: (dumps v ++ ',' :: ' ' :: dumpsMembers (kv2 :: ms')), by
        show dumpStr k ++ ':' :: ' ' :: dumps v ++ ',' :: ' ' :: dumpsMembers (kv2 :: ms') = _
        simp [dumpStr]⟩

theorem pMembers_quote (fuel : ℕ) (X : List Char) :
    pMembers (fuel + 1) ('"' :: X)
      = (match parseStrBody X with
         | none => none
         | some (k, r1) =>
             match skipJsonWs r1 with
             | ':' :: r2 =>
                 (match pVal fuel (skipJsonWs r2) with
                  | none => none
                  | some (v, r3) =>
                      match skipJsonWs r3 with
                      | ',' :: r4 =>
                          (pMembers fuel (skipJsonWs r4)).map (fun p => ((k, v) :: p.1, p.2))
                      | '}' :: r4 => some ([(k, v)], r4)
                      | _ => none)
             | _ => none) := by
  simp only [pMembers]
  rw [skipJsonWs_cons _ (by decide)]
  rfl

mutual

theorem pVal_dumps : ∀ (fuel : ℕ) (v : JVal) (rest : List Char),
    fcount v ≤ fuel → (numDelim rest = true ∨ ∀ n : ℤ, v ≠ .jint n) →
    pVal fuel (dumps v ++ rest) = some (v, rest)
  | 0, v, _, hf, _ => by
      have := fcount_pos v
      omega
  | fuel + 1, v, rest, hf, hrest => by
      cases v with
      | jnull => exact pVal_lit_null fuel rest
      | jbool b =>
          cases b with
          | true => exact pVal_lit_true fuel rest
          | false => exact pVal_lit_false fuel rest
      | jstr s =>
          show pVal (fuel + 1) ('"' :: (((s.map escChar).flatten ++ ['"']) ++ rest))
            = some (.jstr s, rest)
          rw [pVal_quote]
          rw [show ((s.map escChar).flatten ++ ['"']) ++ rest
              = (s.map escChar).flatten ++ ('"' :: rest) from by simp]
          rw [parseStrBody_dump]
          rfl
      | jint n =>
          have hd : numDelim rest = true := by
            rcases hrest with h | h
            · exact h
            · exact absurd rfl (h n)
          show pVal (fuel + 1) (intChars n ++ rest) = some (.jint n, rest)
          have hpn : pNum (intChars n ++ rest) = some (n, rest) := pNum_intChars n rest hd
          unfold intChars at hpn ⊢
          by_cases hn : n < 0
          · rw [if_pos hn] at hpn ⊢
            rw [List.cons_append] at hpn ⊢
            rw [pVal_other fuel '-' _ (by decide) (by decide) (by decide) (by decide)
              (by decide) (by decide) (by decide)]
            rw [if_pos (.inl rfl), hpn]
            rfl
          · rw [if_neg hn] at hpn ⊢
            cases hm : natChars n.natAbs with
            | nil => exact absurd hm (natChars_ne_nil _)
            | cons c t =>
                have hc : c.isDigit = true := natChars_all_digits _ c (by rw [hm]; simp)
                obtain ⟨⟨hw, _, _⟩, ⟨hn', ht', hf'⟩, hq', hlb', hbr'⟩ := digit_not_special hc
                have hlist : natChars n.natAbs ++ rest = c :: (t ++ rest) := by simp [hm]
                rw [hlist] at hpn
                rw [List.cons_append]
                rw [pVal_other fuel c _ hw hn' ht' hf' hq' hlb' hbr']
                rw [if_pos (.inr hc), hpn]
                rfl
      | jarr es =>
          cases es with
          | nil =>
              show pVal (fuel + 1) ('[' :: (']' :: rest)) = some (.jarr [], rest)
              rw [pVal_lbracket, skipJsonWs_cons _ (by decide)]
              rfl
          | cons e es' =>
              have hshape : dumps (.jarr (e :: es')) ++ rest
                  = '[' :: (dumpsElems (e :: es') ++ (']' :: rest)) := by
                show ('[' :: (dumpsElems (e :: es') ++ [']'])) ++ rest = _
                simp
              rw [hshape, pVal_lbracket]
              obtain ⟨c, t, hhd, hwc, hnc, _⟩ := dumpsElems_head e es'
              rw [hhd, List.cons_append, skipJsonWs_cons _ hwc]
              have hec : ecount (e :: es') ≤ fuel := by
                simp only [fcount] at hf
                omega
              split
              · rename_i r' heq
                injection heq with h1 _
                exact absurd h1 hnc
              · rename_i cs' heq
                rw [← List.cons_append, ← hhd,
                  pElems_dumps fuel (e :: es') rest (by simp) hec]
                rfl
      | jobj ms =>
          cases ms with
          | nil =>
              show pVal (fuel + 1) ('{' :: ('}' :: rest)) = some (.jobj [], rest)
              rw [pVal_lbrace, skipJsonWs_cons _ (by decide)]
              rfl
          | cons kv ms' =>
              obtain ⟨k, v⟩ := kv
              have hshape : dumps (.jobj ((k, v) :: ms')) ++ rest
                  = '{' :: (dumpsMembers ((k, v) :: ms') ++ ('}' :: rest)) := by
                show ('{' :: (dumpsMembers ((k, v) :: ms') ++ ['}'])) ++ rest = _
                simp
              rw [hshape, pVal_lbrace]
              obtain ⟨t, hhd⟩ := dumpsMembers_head k v ms'
              rw [hhd, List.cons_append, skipJsonWs_cons _ (by decide)]
              have hmc : mcount ((k, v) :: ms') ≤ fuel := by
                simp only [fcount] at hf
                omega
              split
              · rename_i r' heq
                injection heq with h1 _
                exact absurd h1 (by decide)
              · rename_i cs' heq
                rw [← List.cons_append, ← hhd,
                  pMembers_dumps fuel ((k, v) :: ms') rest (by simp) hmc]
                rfl

theorem pElems_dumps : ∀ (fuel : ℕ) (es : List JVal) (rest : List Char),
    es ≠ [] → ecount es ≤ fuel →
    pElems fuel (dumpsElems es ++ (']' :: rest)) = some (es, rest)
  | 0, es, rest, hne, hec => by
      have := ecount_pos es
      omega
  | fuel + 1, es, rest, hne, hec => by
      cases es with
      | nil => exact absurd rfl hne
      | cons e es' =>
          cases es' with
          | nil =>
              show pElems (fuel + 1) (dumps e ++ (']' :: rest)) = some ([e], rest)
              simp only [pElems]
              have hfe : fcount e ≤ fuel := by
                simp only [ecount] at hec
                omega
              rw [pVal_dumps fuel e (']' :: rest) hfe
                (.inl (numDelim_not_digit _ (by decide)))]
              dsimp only
              rw [skipJsonWs_cons _ (by decide)]
              split
              · rename_i r' heq
                injection heq with h1 _
                exact absurd h1 (by decide)
              · rename_i r' heq
                injection heq with _ h2
                subst h2
                rfl
              · rename_i hno1 hno2
                exact absurd rfl (hno2 rest)
          | cons e2 es'' =>
              have hshape : dumpsElems (e :: e2 :: es'') ++ (']' :: rest)
                  = dumps e ++ (',' :: ' ' :: (dumpsElems (e2 :: es'') ++ (']' :: rest))) := by
                show (dumps e ++ ',' :: ' ' :: dumpsElems (e2 :: es'')) ++ (']' :: rest) = _
                simp
              rw [hshape]
              simp only [pElems]
              have hle : 1 + max (fcount e) (ecount (e2 :: es'')) ≤ fuel + 1 := by
                simpa [ecount] using hec
              have hmax : max (fcount e) (ecount (e2 :: es'')) ≤ fuel := by omega
              have hfe : fcount e ≤ fuel := le_trans (Nat.le_max_left _ _) hmax
              have hee : ecount (e2 :: es'') ≤ fuel := le_trans (Nat.le_max_right _ _) hmax
              rw [pVal_dumps fuel e _ hfe (.inl (numDelim_not_digit _ (by decide)))]
              dsimp only
              rw [skipJsonWs_cons _ (by decide)]
              split
              · rename_i r' heq
                injection heq with _ h2
                subst h2
                rw [skipJsonWs_cons_ws _ (by decide)]
                obtain ⟨c, t, hhd, hwc, _, _⟩ := dumpsElems_head e2 es''
                rw [show dumpsElems (e2 :: es'') ++ (']' :: rest) = c :: (t ++ (']' :: rest))
                  from by simp [hhd]]
                rw [skipJsonWs_cons _ hwc]
                rw [show c :: (t ++ (']' :: rest)) = dumpsElems (e2 :: es'') ++ (']' :: rest)
                  from by simp [hhd]]
                rw [pElems_dumps fuel (e2 :: es'') rest (by simp) hee]
                rfl
              · rename_i r' heq
                injection heq with h1 _
                exact absurd h1 (by decide)
              · rename_i hno1 hno2
                exact absurd rfl (hno1 (' ' :: (dumpsElems (e2 :: es'') ++ (']' :: rest))))

theorem pMembers_dumps : ∀ (fuel : ℕ) (ms : List ((List Char) × JVal)) (rest : List Char),
    ms ≠ [] → mcount ms ≤ fuel →
    pMembers fuel (dumpsMembers ms ++ ('}' :: rest)) = some (ms, rest)
  | 0, ms, rest, hne, hmc => by
      have := mcount_pos ms
      omega
  | fuel + 1, ms, rest, hne, hmc => by
      cases ms with
      | nil => exact absurd rfl hne
      | cons kv ms' =>
          obtain ⟨k, v⟩ := kv
          cases ms' with
          | nil =>
              have hshape : dumpsMembers [(k, v)] ++ ('}' :: rest)
                  = '"' :: ((k.map escChar).flatten
                      ++ ('"' :: (':' :: ' ' :: (dumps v ++ ('}' :: rest))))) := by
                show (dumpStr k ++ ':' :: ' ' :: dumps v) ++ ('}' :: rest) = _
                simp [dumpStr]
              rw [hshape, pMembers_quote, parseStrBody_dump]
              dsimp only
              have hfv : fcount v ≤ fuel := by
                simp only [mcount] at hmc
                omega
              rw [skipJsonWs_cons _ (by decide)]
              split
              · rename_i r2 heq
                injection heq with _ h2
                subst h2
                rw [skipJsonWs_cons_ws _ (by decide), skipJsonWs_dumps]
                rw [pVal_dumps fuel v _ hfv (.inl (numDelim_not_digit _ (by decide)))]
                dsimp only
                rw [skipJsonWs_cons _ (by decide)]
                split
                · rename_i r4 heq2
                  injection heq2 with h1 _
                  exact absurd h1 (by decide)
                · rename_i r4 heq2
                  injection heq2 with _ h2
                  subst h2
                  rfl
                · rename_i hno1 hno2
                  exact absurd rfl (hno2 rest)
              · rename_i hno
                exact absurd rfl (hno (' ' :: (dumps v ++ ('}' :: rest))))
          | cons kv2 ms'' =>
              have hshape : dumpsMembers ((k, v) :: kv2 :: ms'') ++ ('}' :: rest)
                  = '"' :: ((k.map escChar).flatten
                      ++ ('"' :: (':' :: ' ' :: (dumps v
                        ++ (',' :: ' ' :: (dumpsMembers (kv2 :: ms'') ++ ('}' :: rest))))))) := by
                show (dumpStr k ++ ':' :: ' ' :: dumps v ++ ',' :: ' ' :: dumpsMembers (kv2 :: ms''))
                    ++ ('}' :: rest) = _
                simp [dumpStr]
              rw [hshape, pMembers_quote, parseStrBody_dump]
              dsimp only
              have hle : 1 + max (fcount v) (mcount (kv2 :: ms'')) ≤ fuel + 1 := by
                simpa [mcount] using hmc
              have hmax : max (fcount v) (mcount (kv2 :: ms'')) ≤ fuel := by omega
              have hfv : fcount v ≤ fuel := le_trans (Nat.le_max_left _ _) hmax
              have hmm : mcount (kv2 :: ms'') ≤ fuel := le_trans (Nat.le_max_right _ _) hmax
              rw [skipJsonWs_cons _ (by decide)]
              split
              · rename_i r2 heq
                injection heq with _ h2
                subst h2
                rw [skipJsonWs_cons_ws _ (by decide), skipJsonWs_dumps]
                rw [pVal_dumps fuel v _ hfv (.inl (numDelim_not_digit _ (by decide)))]
                dsimp only
                rw [skipJsonWs_cons _ (by decide)]
                split
                · rename_i r4 heq2
                  injection heq2 with _ h2
                  subst h2
                  rw [skipJsonWs_cons_ws _ (by decide)]
                  obtain ⟨kk, vv⟩ := kv2
                  obtain ⟨t2, hhd⟩ := dumpsMembers_head kk vv ms''
                  rw [show dumpsMembers ((kk, vv) :: ms'') ++ ('}' :: rest)
                      = '"' :: (t2 ++ ('}' :: rest)) from by simp [hhd]]
                  rw [skipJsonWs_cons _ (by decide)]
                  rw [show ('"' : Char) :: (t2 ++ ('}' :: rest))
                      = dumpsMembers ((kk, vv) :: ms'') ++ ('}' :: rest) from by simp [hhd]]
                  rw [pMembers_dumps fuel ((kk, vv) :: ms'') rest (by simp) hmm]
                  rfl
                · rename_i r4 heq2
                  injection heq2 with h1 _
                  exact absurd h1 (by decide)
                · rename_i hno1 hno2
                  exact absurd rfl
                    (hno1 (' ' :: (dumpsMembers (kv2 :: ms'') ++ ('}' :: rest))))
              · rename_i hno
                exact absurd rfl
                  (hno (' ' :: (dumps v ++ (',' :: ' ' :: (dumpsMembers (kv2 :: ms'')
                    ++ ('}' :: rest))))))

end

mutual

theorem fcount_le_dumps : ∀ v : JVal, fcount v ≤ (dumps v).length
  | .jnull => by simp [fcount, dumps]
  | .jbool b => by cases b <;> simp [fcount, dumps]
  | .jint n => by
      have h1 : 1 ≤ (natChars n.natAbs).length :=
        List.length_pos.mpr (natChars_ne_nil _)
      show fcount (.jint n) ≤ (intChars n).length
      unfold intChars
      by_cases hn : n < 0 <;> simp [hn, fcount] <;> omega
  | .jstr s => by simp [fcount, dumps, dumpStr]
  | .jarr es => by
      have := ecount_le_dumpsElems es
      simp only [fcount, dumps, List.length_cons, List.length_append]
      simp
      omega
  | .jobj ms => by
      have := mcount_le_dumpsMembers ms
      simp only [fcount, dumps, List.length_cons, List.length_append]
      simp
      omega

theorem ecount_le_dumpsElems : ∀ es : List JVal, ecount es ≤ (dumpsElems es).length + 1
  | [] => by simp [ecount, dumpsElems]
  | [e] => by
      have := fcount_le_dumps e
      simp only [ecount, dumpsElems]
      omega
  | e :: e2 :: es => by
      have h1 := fcount_le_dumps e
      have h2 := ecount_le_dumpsElems (e2 :: es)
      simp only [ecount, dumpsElems, List.length_append, List.length_cons]
      omega

theorem mcount_le_dumpsMembers :
    ∀ ms : List ((List Char) × JVal), mcount ms ≤ (dumpsMembers ms).length + 1
  | [] => by simp [mcount, dumpsMembers]
  | [(k, v)] => by
      have := fcount_le_dumps v
      simp only [mcount, dumpsMembers, List.length_append, List.length_cons]
      omega
  | (k, v) :: kv2 :: ms => by
      have h1 := fcount_le_dumps v
      have h2 := mcount_le_dumpsMembers (kv2 :: ms)
      simp only [mcount, dumpsMembers, List.length_append, List.length_cons]
      omega

end

theorem jsonWs_not_digit {c : Char} (h : jsonWs c = true) : c.isDigit = false := by
  simp only [jsonWs, Bool.or_eq_true, decide_eq_true_eq] at h
  rcases h with ((rfl | rfl) | rfl) | rfl <;> decide

theorem json_loads_dumps_ws (v : JVal) (g : List Char)
    (hg : ∀ c ∈ g, jsonWs c = true) (hv : ∀ n : ℤ, v ≠ .jint n) :
    json_loads (dumps v ++ g) = some v := by
  unfold json_loads
  have hfuel : fcount v ≤ (dumps v ++ g).length + 1 := by
    have := fcount_le_dumps v
    rw [List.length_append]
    omega
  rw [pVal_dumps _ v g hfuel (.inr hv)]
  dsimp only
  rw [if_pos (show skipJsonWs g = [] from List.dropWhile_eq_nil_iff.mpr (fun a ha => hg a ha))]

theorem json_loads_dumps (v : JVal) (hv : ∀ n : ℤ, v ≠ .jint n) :
    json_loads (dumps v) = some v := by
  have := json_loads_dumps_ws v [] (by simp) hv
  simpa using this

theorem truncBrace_append (b g : List Char) (hg : '}' ∉ g) :
    pyTruncBrace ((b ++ ['}']) ++ g) = b ++ ['}'] := by
  unfold pyTruncBrace
  rw [List.reverse_append, List.reverse_append]
  simp only [List.reverse_cons, List.reverse_nil, List.nil_append]
  rw [List.dropWhile_append]
  have hdrop : List.dropWhile (fun c : Char => ¬(c = '}')) g.reverse = [] := by
    rw [List.dropWhile_eq_nil_iff]
    intro a ha
    have hmem : a ∈ g := List.mem_reverse.mp ha
    simp only [decide_eq_true_eq]
    intro hc
    rw [hc] at hmem
    exact hg hmem
  rw [hdrop]
  simp [List.dropWhile_cons]

/-- C6: truncation recovery — for every JSON object (members with
distinct keys) and every trailing garbage string containing no closing
brace, the two-attempt parse of the object's serialization followed by
the garbage succeeds and returns exactly the object, recovered by
truncating at the last closing brace (or directly when the garbage is
pure whitespace). -/
theorem c6_truncation_recovery (ms : List ((List Char) × JVal)) (garbage : List Char)
    (hnd : (ms.map Prod.fst).Nodup) (hg : '}' ∉ garbage) :
    parseRecover (dumps (.jobj ms) ++ garbage) = some (.jobj ms) := by
  unfold parseRecover
  have hnotint : ∀ n : ℤ, (JVal.jobj ms) ≠ .jint n := fun n h => by cases h
  have hfuel : fcount (.jobj ms) ≤ (dumps (.jobj ms) ++ garbage).length + 1 := by
    have := fcount_le_dumps (.jobj ms)
    rw [List.length_append]
    omega
  have hp : pVal ((dumps (.jobj ms) ++ garbage).length + 1) (dumps (.jobj ms) ++ garbage)
      = some (.jobj ms, garbage) :=
    pVal_dumps _ _ _ hfuel (.inr hnotint)
  by_cases hws : skipJsonWs garbage = []
  · have hloads : json_loads (dumps (.jobj ms) ++ garbage) = some (.jobj ms) := by
      unfold json_loads
      rw [hp]
      dsimp only
      rw [if_pos hws]
    rw [hloads]
  · have hloads : json_loads (dumps (.jobj ms) ++ garbage) = none := by
      unfold json_loads
      rw [hp]
      dsimp only
      rw [if_neg hws]
    rw [hloads]
    have hmem : '}' ∈ dumps (.jobj ms) ++ garbage := by
      apply List.mem_append.mpr
      left
      show '}' ∈ '{' :: (dumpsMembers ms ++ ['}'])
      simp
    rw [if_pos hmem]
    have hshape : dumps (.jobj ms) ++ garbage
        = (('{' :: dumpsMembers ms) ++ ['}']) ++ garbage := by
      show ('{' :: (dumpsMembers ms ++ ['}'])) ++ garbage = _
      simp
    rw [hshape, truncBrace_append _ _ hg]
    have hback : ('{' :: dumpsMembers ms) ++ ['}'] = dumps (.jobj ms) := by
      show _ = '{' :: (dumpsMembers ms ++ ['}'])
      simp
    rw [hback]
    exact json_loads_dumps _ hnotint

theorem c6_witness :
    parseRecover (dumps (.jobj [(['a'], .jint 1)]) ++ ('g':: 'a':: 'r':: 'b':: 'a':: 'g':: 'e'::[]))
      = some (.jobj [(['a'], .jint 1)]) :=
  c6_truncation_recovery [(['a'], .jint 1)] ('g':: 'a':: 'r':: 'b':: 'a':: 'g':: 'e'::[])
    (by decide) (by decide)

/-- C5 counterexample: `_safe_json` of advisor_routes.py — one of the
two cited implementations of the structured-output parse operation —
attempts no second parse of the text truncated at the last closing
brace and, on failure, returns the empty dict rather than a none
sentinel: on a serialized object followed by one garbage character the
direct parse fails, the second attempt the claim requires would recover
the object, yet `_safe_json` returns the empty dict, not that object
and not none. -/
theorem c5_counterexample :
    json_loads (dumps (.jobj [(['a'], .jint 1)]) ++ ['x']) = none
    ∧ json_loads (pyTruncBrace (dumps (.jobj [(['a'], .jint 1)]) ++ ['x']))
        = some (.jobj [(['a'], .jint 1)])
    ∧ advisorSafeJson (dumps (.jobj [(['a'], .jint 1)]) ++ ['x']) = .jobj []
    ∧ advisorSafeJson (dumps (.jobj [(['a'], .jint 1)]) ++ ['x'])
        ≠ .jobj [(['a'], .jint 1)] := by
  have hnotint : ∀ n : ℤ, (JVal.jobj [(['a'], .jint 1)]) ≠ .jint n := fun n h => by cases h
  have hfuel : fcount (.jobj [(['a'], .jint 1)])
      ≤ (dumps (.jobj [(['a'], .jint 1)]) ++ ['x']).length + 1 := by
    have := fcount_le_dumps (.jobj [(['a'], .jint 1)])
    rw [List.length_append]
    omega
  have hp : pVal ((dumps (.jobj [(['a'], .jint 1)]) ++ ['x']).length + 1)
        (dumps (.jobj [(['a'], .jint 1)]) ++ ['x'])
      = some (.jobj [(['a'], .jint 1)], ['x']) :=
    pVal_dumps _ _ _ hfuel (.inr hnotint)
  have h1 : json_loads (dumps (.jobj [(['a'], .jint 1)]) ++ ['x']) = none := by
    unfold json_loads
    rw [hp]
    dsimp only
    rw [if_neg (by rw [skipJsonWs_cons _ (by decide)]; simp)]
  have h2 : json_loads (pyTruncBrace (dumps (.jobj [(['a'], .jint 1)]) ++ ['x']))
      = some (.jobj [(['a'], .jint 1)]) := by
    have hshape : dumps (.jobj [(['a'], .jint 1)]) ++ ['x']
        = (('{' :: dumpsMembers [(['a'], .jint 1)]) ++ ['}']) ++ ['x'] := by
      show ('{' :: (dumpsMembers [(['a'], .jint 1)] ++ ['}'])) ++ ['x'] = _
      simp
    rw [hshape, truncBrace_append _ _ (by decide)]
    have hback : ('{' :: dumpsMembers [(['a'], .jint 1)]) ++ ['}']
        = dumps (.jobj [(['a'], .jint 1)]) := by
      show _ = '{' :: (dumpsMembers [(['a'], .jint 1)] ++ ['}'])
      simp
    rw [hback]
    exact json_loads_dumps _ hnotint
  have h0 : advisorSafeJson (dumps (.jobj [(['a'], .jint 1)]) ++ ['x']) = .jobj [] := by
    unfold advisorSafeJson
    rw [h1]
  refine ⟨h1, h2, h0, ?_⟩
  intro h
  rw [h0] at h
  injection h with h3
  exact List.noConfusion h3

/-- C5 amended: both cited parse operations are total functions (they
never raise).  The concept_llm composite `parseRecover` returns the
direct parse when that succeeds; on failure it returns the result of a
second parse of the text truncated at the last closing brace when one
exists; it returns the none sentinel when both attempts fail — in
particular on the non-JSON string "not json at all".  The
advisor_routes copy `advisorSafeJson` makes only the direct attempt and
returns the empty dict (never a none sentinel) whenever it fails. -/
theorem c5_amended_parse_never_raises :
    (∀ (s : List Char) (v : JVal), json_loads s = some v → parseRecover s = some v)
    ∧ (∀ s : List Char, json_loads s = none → '}' ∈ s →
        parseRecover s = json_loads (pyTruncBrace s))
    ∧ (∀ s : List Char, json_loads s = none → json_loads (pyTruncBrace s) = none →
        parseRecover s = none)
    ∧ parseRecover ("not json at all".toList) = none
    ∧ (∀ (s : List Char) (v : JVal), json_loads s = some v → advisorSafeJson s = v)
    ∧ (∀ s : List Char, json_loads s = none → advisorSafeJson s = .jobj [])
    ∧ advisorSafeJson ("not json at all".toList) = .jobj [] := by
  refine ⟨?_, ?_, ?_, ?_, ?_, ?_, ?_⟩
  · intro s v h
    unfold parseRecover
    rw [h]
  · intro s h1 hm
    unfold parseRecover
    rw [h1]
    dsimp only
    rw [if_pos hm]
  · intro s h1 h2
    unfold parseRecover
    rw [h1]
    dsimp only
    by_cases hm : '}' ∈ s
    · rw [if_pos hm]
      exact h2
    · rw [if_neg hm]
  · rfl
  · intro s v h
    unfold advisorSafeJson
    rw [h]
  · intro s h
    unfold advisorSafeJson
    rw [h]
  · rfl

theorem c5_witness :
    parseRecover (dumps (.jobj [])) = some (.jobj [])
    ∧ parseRecover ('n':: 'o':: ' ':: 'b':: 'r':: 'a':: 'c':: 'e':: 's'::[]) = none
    ∧ advisorSafeJson ('n':: 'o':: ' ':: 'b':: 'r':: 'a':: 'c':: 'e':: 's'::[]) = .jobj [] :=
  ⟨c5_amended_parse_never_raises.1 (dumps (.jobj [])) (.jobj []) (by rfl),
   (c5_amended_parse_never_raises.2.2.1 ('n':: 'o':: ' ':: 'b':: 'r':: 'a':: 'c':: 'e':: 's'::[])
     (by rfl) (by rfl)),
   (c5_amended_parse_never_raises.2.2.2.2.2.1 ('n':: 'o':: ' ':: 'b':: 'r':: 'a':: 'c':: 'e':: 's'::[])
     (by rfl))⟩

end Aero
